import Mathlib

/-! Relay core of ehco, package `internal/transporter`.

A shallow embedding of `stats.go`, `base.go` and the UDP path of `raw.go`,
followed by the properties of the specification that were checked against it.

Conventions of the embedding
* Go `int64` values are `Int`, every addition reduced by `wrapInt64`.
* A Go `error` is `Option GoError` (`none` is `nil`).
* Stateful code passes its state explicitly and records the calls it makes on
  its collaborators (gauges, connection manager, sockets, lock) as a list of
  events, in program order; deferred calls are appended in LIFO order at the
  exit they belong to.  Log lines are not recorded.
-/

namespace Ehco

/-! ## `stats.go` -/

/-- Two's-complement reduction of an integer to the range of Go's `int64`. -/
def wrapInt64 (x : Int) : Int := (x + 2 ^ 63) % 2 ^ 64 - 2 ^ 63

/-- The integer is representable as an `int64`. -/
def inInt64 (x : Int) : Prop := -(2 ^ 63) ≤ x ∧ x < 2 ^ 63

instance (x : Int) : Decidable (inInt64 x) := by unfold inInt64; infer_instance

/-- Source `type Stats struct { up int64; down int64 }`. -/
structure Stats where
  up : Int
  down : Int
deriving DecidableEq, Repr

/-- Source `func (s *Stats) ReSet()`. -/
def Stats.ReSet (s : Stats) : Stats := { s with up := 0, down := 0 }

/-- Source `type connStatsImpl struct { s *Stats }`. -/
structure connStatsImpl where
  s : Stats
deriving DecidableEq, Repr

/-- Source `func NewConnStats() ConnStats`. -/
def NewConnStats : connStatsImpl := { s := { up := 0, down := 0 } }

/-- Source `func (c *connStatsImpl) RecordTraffic(down, up int64)`: `c.s.down += down; c.s.up += up`. -/
def connStatsImpl.RecordTraffic (c : connStatsImpl) (down up : Int) : connStatsImpl :=
  let s1 : Stats := { c.s with down := wrapInt64 (c.s.down + down) }
  let s2 : Stats := { s1 with up := wrapInt64 (s1.up + up) }
  { s := s2 }

/-- Source `func (c *connStatsImpl) ReSetTraffic()`. -/
def connStatsImpl.ReSetTraffic (c : connStatsImpl) : connStatsImpl := { s := c.s.ReSet }

/-- Source `func (c *connStatsImpl) GetStats() *Stats`. -/
def connStatsImpl.GetStats (c : connStatsImpl) : Stats := c.s

/-- A call on the `ConnStats` interface. -/
inductive StatsCall where
  | record (down up : Int)
  | reset
deriving DecidableEq, Repr

/-- Perform one interface call. -/
def StatsCall.apply (c : connStatsImpl) : StatsCall → connStatsImpl
  | .record d u => c.RecordTraffic d u
  | .reset => c.ReSetTraffic

/-- Perform a sequence of interface calls, first to last. -/
def runCalls (c : connStatsImpl) (calls : List StatsCall) : connStatsImpl :=
  calls.foldl StatsCall.apply c

/-- Perform `RecordTraffic(d_i, u_i)` for every pair of the list, first to last. -/
def recordAll (c : connStatsImpl) (pairs : List (Int × Int)) : connStatsImpl :=
  pairs.foldl (fun acc p => acc.RecordTraffic p.1 p.2) c

/-- Exact (unbounded) sum of the `down` arguments. -/
def sumDown (pairs : List (Int × Int)) : Int := (pairs.map Prod.fst).sum

/-- Exact (unbounded) sum of the `up` arguments. -/
def sumUp (pairs : List (Int × Int)) : Int := (pairs.map Prod.snd).sum

/-- Every `RecordTraffic` of the sequence has non-negative arguments and none of
its two additions leaves the `int64` range, starting from counters `c`. -/
def GrowsWithin : connStatsImpl → List StatsCall → Prop
  | _, [] => True
  | c, .record d u :: rest =>
      0 ≤ d ∧ 0 ≤ u ∧ c.s.down + d < 2 ^ 63 ∧ c.s.up + u < 2 ^ 63 ∧
        GrowsWithin (c.RecordTraffic d u) rest
  | c, .reset :: rest => GrowsWithin c.ReSetTraffic rest

/-! ## `raw.go`: the UDP session table and `HandleUDPConn` -/

/-- Payload bytes. -/
abbrev Byte := Nat

/-- A Go `map[string]V`, as the list of its entries. -/
abbrev GoMap (V : Type) := List (String × V)

/-- Go `v, found := m[k]`. -/
def mapGet {V : Type} (m : GoMap V) (k : String) : Option V :=
  match m with
  | [] => none
  | e :: rest => if e.1 = k then some e.2 else mapGet rest k

/-- Go `delete(m, k)`. -/
def mapDelete {V : Type} (m : GoMap V) (k : String) : GoMap V :=
  m.filter (fun e => !decide (e.1 = k))

/-- Go `m[k] = v`: the entry under `k` is replaced, or added. -/
def mapSet {V : Type} (m : GoMap V) (k : String) (v : V) : GoMap V :=
  (k, v) :: mapDelete m k

/-- Number of entries stored under key `k`. -/
def mapCount {V : Type} (m : GoMap V) (k : String) : Nat :=
  (m.filter (fun e => decide (e.1 = k))).length

/-- A client address `*net.UDPAddr`. -/
structure UDPAddr where
  IP : List Nat
  Port : Nat
  Zone : String
deriving DecidableEq, Repr

/-- The standard library's `(*net.UDPAddr).String()`, in its IPv4 form
`a.b.c.d:port` (`a.b.c.d%zone:port` with a zone).  The table only uses it as key. -/
def UDPAddr.String (a : UDPAddr) : String :=
  ".".intercalate (a.IP.map toString) ++ (if a.Zone = "" then "" else "%" ++ a.Zone)
    ++ ":" ++ toString a.Port

/-- Modelled from the spec: `BufferCh`, the UDP session object the table points to
(its declaration is not under `src/`).  A `*BufferCh` is the address `ptr` of the
object together with the client address it was built for; its message queue is
heap state that no table operation reads. -/
structure BufferCh where
  ptr : Nat
  addr : UDPAddr
deriving DecidableEq, Repr

/-- Modelled from the spec: `newudpBufferCh`, the constructor of a session (not under
`src/`): "construct a new session".  It allocates a fresh object; `allocated` is the
number of sessions allocated so far, which is the address of the new one. -/
def newudpBufferCh (allocated : Nat) (uaddr : UDPAddr) : BufferCh :=
  { ptr := allocated, addr := uaddr }

/-- Source `type Raw struct`, restricted to the UDP path, with the allocation counter of
the heap the sessions live in. -/
structure Raw where
  UDPBufferChMap : GoMap BufferCh
  allocated : Nat
deriving DecidableEq, Repr

/-- Result of a read on the outbound socket. -/
inductive ReadResult where
  | ok (n : Nat)
  | err
  | timeout
deriving DecidableEq, Repr

/-- Calls made by the UDP path, in program order.  `task` is 1 for the goroutine
that reads from the remote, 2 for the one that takes a payload from the queue. -/
inductive RawEv where
  | lbNext
  | gaugeInc (remote : String)
  | gaugeDec (remote : String)
  | lock
  | unlock
  | mapLookup (key : String)
  | mapInsert (key : String) (ptr : Nat)
  | mapDelete (key : String)
  | resolveUDPAddr (remote : String)
  | dialUDP
  | rcClose
  | poolGet
  | poolPut
  | wgAdd
  | go (task : Nat)
  | wgWait
  | setDeadline (task : Nat)
  | rcRead (res : ReadResult)
  | writeToUDP (n : Nat) (ok : Bool)
  | chanRecv (n : Nat)
  | rcWrite (n : Nat) (ok : Bool)
  | ctxDone
  | metricAdd (remote : String) (bytes : Nat)
  | cancel
  | wgDone (task : Nat)
deriving DecidableEq, Repr

/-- What `GetOrCreateBufferCh` returns, the state it leaves and the calls it made. -/
structure GetOrCreateRun where
  bc : BufferCh
  raw : Raw
  trace : List RawEv
deriving DecidableEq, Repr

/-- Source `func (raw *Raw) GetOrCreateBufferCh(uaddr *net.UDPAddr) *BufferCh`. -/
def Raw.GetOrCreateBufferCh (raw : Raw) (uaddr : UDPAddr) : GetOrCreateRun :=
  match mapGet raw.UDPBufferChMap uaddr.String with
  | none =>
      let bc := newudpBufferCh raw.allocated uaddr
      { bc := bc
        raw := { UDPBufferChMap := mapSet raw.UDPBufferChMap uaddr.String bc
                 allocated := raw.allocated + 1 }
        trace := [.lock, .mapLookup uaddr.String, .mapInsert uaddr.String bc.ptr, .unlock] }
  | some bc =>
      { bc := bc, raw := raw, trace := [.lock, .mapLookup uaddr.String, .unlock] }

/-- How the read loop of task 1 ends. -/
inductive InboundEnd where
  | readError
  | deadline
  | writeBackError (n : Nat)
deriving DecidableEq, Repr

/-- A finished run of the read loop: the sizes of the datagrams read and written
back successfully, then the failure that ends the loop. -/
structure InboundRun where
  rounds : List Nat
  ending : InboundEnd
deriving DecidableEq, Repr

/-- The `for` loop of task 1: the calls it makes and the final value of `wt`. -/
def inboundLoop : List Nat → InboundEnd → Nat → List RawEv × Nat
  | [], .readError, wt => ([.setDeadline 1, .rcRead .err], wt)
  | [], .deadline, wt => ([.setDeadline 1, .rcRead .timeout], wt)
  | [], .writeBackError n, wt =>
      ([.setDeadline 1, .rcRead (.ok n), .writeToUDP n false], wt)
  | n :: rest, ending, wt =>
      let r := inboundLoop rest ending (wt + n)
      (.setDeadline 1 :: .rcRead (.ok n) :: .writeToUDP n true :: r.1, r.2)

/-- Task 1: the loop, the metric, then the deferred `cancel()` and `wg.Done()`. -/
def inboundTask (remote : String) (run : InboundRun) : List RawEv :=
  let r := inboundLoop run.rounds run.ending 0
  r.1 ++ [.metricAdd remote (r.2 * 2), .cancel, .wgDone 1]

/-- Which case the `select` of task 2 takes, and whether the write succeeds. -/
inductive OutboundStep where
  | cancelled
  | payload (b : List Byte) (writeOK : Bool)
deriving DecidableEq, Repr

/-- Task 2: one `select`, then the deferred `wg.Done()`. -/
def outboundTask (remote : String) : OutboundStep → List RawEv
  | .cancelled => [.ctxDone, .wgDone 2]
  | .payload b true =>
      [.chanRecv b.length, .rcWrite b.length true, .setDeadline 2,
        .metricAdd remote (b.length * 2), .wgDone 2]
  | .payload b false => [.chanRecv b.length, .rcWrite b.length false, .wgDone 2]

/-- Interleaving of two threads under a schedule (`true` picks the first thread).
The second thread cannot take `ctxDone` while the first still has its `cancel` to
do; when the schedule runs out the first thread runs to its end, then the second. -/
def interleave : List Bool → List RawEv → List RawEv → List RawEv
  | [], xs, ys => xs ++ ys
  | _ :: _, [], ys => ys
  | _ :: _, x :: xs, [] => x :: xs
  | pick :: s, x :: xs, y :: ys =>
      if pick || (y == RawEv.ctxDone && (x :: xs).contains RawEv.cancel) then
        x :: interleave s xs (y :: ys)
      else
        y :: interleave s (x :: xs) ys

/-- Everything outside the program that a call of `HandleUDPConn` depends on. -/
structure UDPWorld where
  remote : String
  resolveOK : Bool
  dialOK : Bool
  inbound : InboundRun
  outbound : OutboundStep
  schedule : List Bool
deriving DecidableEq, Repr

/-- Go `net.DialUDP("udp", nil, remoteUdp)` returns a socket: the address resolved
(otherwise `remoteUdp` is nil and the dial reports a missing address) and the dial
itself succeeded. -/
def UDPWorld.dialed (w : UDPWorld) : Bool := w.resolveOK && w.dialOK

/-- The state `HandleUDPConn` leaves and the calls it made. -/
structure HandleUDPRun where
  raw : Raw
  trace : List RawEv
deriving DecidableEq, Repr

/-- Source `func (raw *Raw) HandleUDPConn(uaddr *net.UDPAddr, local *net.UDPConn)`. -/
def Raw.HandleUDPConn (raw : Raw) (uaddr : UDPAddr) (w : UDPWorld) : HandleUDPRun :=
  let g := raw.GetOrCreateBufferCh uaddr
  let pre : List RawEv :=
    [.lbNext, .gaugeInc w.remote] ++ g.trace ++ [.resolveUDPAddr w.remote, .dialUDP]
  if w.dialed then
    let tasks := interleave w.schedule (inboundTask w.remote w.inbound)
      ([.wgAdd, .go 2] ++ outboundTask w.remote w.outbound)
    { raw := { g.raw with UDPBufferChMap := mapDelete g.raw.UDPBufferChMap uaddr.String }
      trace := pre ++ [.poolGet, .wgAdd, .go 1] ++ tasks
        ++ [.wgWait, .poolPut, .rcClose, .mapDelete uaddr.String, .gaugeDec w.remote] }
  else
    { raw := g.raw, trace := pre ++ [.gaugeDec w.remote] }

/-- The lock discipline on a trace: every insertion into and deletion from the
table happens between a `lock` and the following `unlock`. -/
def lockDiscipline : Bool → List RawEv → Bool
  | _, [] => true
  | _, .lock :: rest => lockDiscipline true rest
  | _, .unlock :: rest => lockDiscipline false rest
  | held, .mapInsert _ _ :: rest => held && lockDiscipline held rest
  | held, .mapDelete _ :: rest => held && lockDiscipline held rest
  | held, _ :: rest => lockDiscipline held rest

/-- The two calls of the deferred teardown of `HandleUDPConn`: closing the outbound
socket and deleting from the table. -/
def RawEv.isTeardown : RawEv → Bool
  | .rcClose => true
  | .mapDelete _ => true
  | _ => false

/-- The calls made from inside the two goroutines, and the `wg.Add(1)` and `go`
that start the second one. -/
def RawEv.isTaskEv : RawEv → Bool
  | .wgAdd => true
  | .go _ => true
  | .setDeadline _ => true
  | .rcRead _ => true
  | .writeToUDP _ _ => true
  | .chanRecv _ => true
  | .rcWrite _ _ => true
  | .ctxDone => true
  | .metricAdd _ _ => true
  | .cancel => true
  | .wgDone _ => true
  | _ => false

/-- Sample client address `10.0.0.1:53`. -/
def clientA : UDPAddr := { IP := [10, 0, 0, 1], Port := 53, Zone := "" }

/-- Sample client address `10.0.0.2:53`. -/
def clientB : UDPAddr := { IP := [10, 0, 0, 2], Port := 53, Zone := "" }

/-- A `Raw` with an empty session table and no session allocated yet. -/
def emptyRaw : Raw := { UDPBufferChMap := [], allocated := 0 }

/-- A `Raw` whose table holds one session, for client `10.0.0.9:7`. -/
def oneSessionRaw : Raw :=
  { UDPBufferChMap := [("10.0.0.9:7", { ptr := 0, addr := { IP := [10, 0, 0, 9], Port := 7, Zone := "" } })]
    allocated := 1 }

/-- A run in which the remote's address does not resolve, so the dial fails. -/
def unresolvedWorld : UDPWorld :=
  { remote := "remote.invalid:53", resolveOK := false, dialOK := false,
    inbound := { rounds := [], ending := .readError }, outbound := .cancelled, schedule := [] }

/-- A run in which the dial succeeds, nothing arrives from the remote before the
idle deadline, and the queue task is cancelled. -/
def idleWorld : UDPWorld :=
  { remote := "r:53", resolveOK := true, dialOK := true,
    inbound := { rounds := [], ending := .deadline }, outbound := .cancelled, schedule := [] }

/-- A run in which one datagram of 3 bytes is relayed back before the idle deadline,
the queue task being scheduled first. -/
def oneDatagramWorld : UDPWorld :=
  { remote := "r:53", resolveOK := true, dialOK := true,
    inbound := { rounds := [3], ending := .deadline }, outbound := .cancelled,
    schedule := [false, false, false, true] }

/-- Invariant of the table and the heap: one entry per key, no session stored under
two keys, every stored session already allocated. -/
def Raw.WF (raw : Raw) : Prop :=
  (raw.UDPBufferChMap.map Prod.fst).Nodup ∧
  (raw.UDPBufferChMap.map (fun e => e.2.ptr)).Nodup ∧
  ∀ e ∈ raw.UDPBufferChMap, e.2.ptr < raw.allocated

instance (raw : Raw) : Decidable raw.WF := by unfold Raw.WF; infer_instance

/-! ## `base.go`: the relay pipeline -/

/-- A Go `error` value: `fmt.Errorf` without `%w`, or with a wrapped cause. -/
inductive GoError where
  | errorf (msg : String)
  | wrap (msg : String) (cause : GoError)
deriving DecidableEq, Repr

/-- Go `err.Error()`: the message; a wrapping error prints its text, then its cause. -/
def GoError.Error : GoError → String
  | .errorf msg => msg
  | .wrap msg cause => msg ++ cause.Error

/-- The fields of `conf.Options` that `base.go` reads. -/
structure Options where
  MaxConnection : Int
  BlockedProtocols : List String
  MaxReadRateKbps : Int
  SniffTimeout : Int
deriving DecidableEq, Repr

/-- The fields of `conf.Config` that `base.go` reads. -/
structure Config where
  Label : String
  Options : Options
deriving DecidableEq, Repr

/-- An `lb.Node`, as cloned for one flow. -/
structure Node where
  Label : String
  Address : String
  HandShakeDuration : Int
deriving DecidableEq, Repr

/-- A `net.Conn` as seen by its reader: a socket with the inbound bytes not read
yet, or one of the two wrappers `base.go` builds around it. -/
inductive Conn where
  | sock (id : Nat) (unread : List Byte)
  | cached (inner : Conn) (buffer : List Byte)
  | rateLimited (inner : Conn) (kbps : Int)
deriving DecidableEq, Repr

/-- Every byte a reader of the connection receives, in order: a cached connection
(`bufio.NewCachedConn`) serves its buffer first, then the connection under it. -/
def Conn.readAll : Conn → List Byte
  | .sock _ unread => unread
  | .cached inner buffer => buffer ++ inner.readAll
  | .rateLimited inner _ => inner.readAll

/-- Read `n` bytes (fewer when the stream is shorter): the bytes read and the
connection afterwards. -/
def Conn.read : Conn → Nat → List Byte × Conn
  | .sock id unread, n => (unread.take n, .sock id (unread.drop n))
  | .cached inner buffer, n =>
      if n ≤ buffer.length then (buffer.take n, .cached inner (buffer.drop n))
      else
        let r := inner.read (n - buffer.length)
        (buffer ++ r.1, .cached r.2 [])
  | .rateLimited inner kbps, n =>
      let r := inner.read n
      (r.1, .rateLimited r.2 kbps)

/-- A `conn.relayConnImpl` as built by `conn.NewRelayConn(c, rc, opts...)` from the
six options `handleRelayConn` passes (the logger is left out). -/
structure RelayConn where
  clientConn : Conn
  remoteConn : Conn
  remote : Node
  connType : String
  relayLabel : String
  options : Options
  handshakeDuration : Int
deriving DecidableEq, Repr

/-- Modelled from the spec: the connection manager `cmgr.Cmgr` (package
`internal/cmgr`, not under `src/`), which "tracks active connections for
admission-limit enforcement": the registered connections, in registration order. -/
structure Cmgr where
  active : List RelayConn
deriving DecidableEq, Repr

/-- Modelled from the spec: `AddConnection(relayConn)` of `internal/cmgr` (not
under `src/`) registers the connection. -/
def Cmgr.AddConnection (m : Cmgr) (rc : RelayConn) : Cmgr := { active := m.active ++ [rc] }

/-- Modelled from the spec: `RemoveConnection(relayConn)` of `internal/cmgr` (not
under `src/`) deregisters the connection. -/
def Cmgr.RemoveConnection (m : Cmgr) (rc : RelayConn) : Cmgr := { active := m.active.erase rc }

/-- Modelled from the spec: `CountConnection(cmgr.ConnectionTypeActive)` of
`internal/cmgr` (not under `src/`), the number of active connections. -/
def Cmgr.CountConnection (m : Cmgr) : Int := (m.active.length : Int)

/-- Modelled from the spec: `metrics.METRIC_CONN_TYPE_TCP` (package
`internal/metrics`, not under `src/`), the connection-type tag "tcp". -/
def METRIC_CONN_TYPE_TCP : String := "tcp"

/-- Modelled from the spec: `metrics.METRIC_CONN_TYPE_UDP` (package
`internal/metrics`, not under `src/`), the connection-type tag "udp". -/
def METRIC_CONN_TYPE_UDP : String := "udp"

/-- Calls made by the relay pipeline on its collaborators, in program order. -/
inductive RelayEv where
  | lbNext
  | gaugeInc (label connType : String)
  | gaugeDec (label connType : String)
  | countConnection
  | newPacket
  | peekStream
  | bufferRelease
  | handShake (remote : Node) (isTCP : Bool)
  | rcClose
  | addConnection (rc : RelayConn)
  | transport (rc : RelayConn)
  | removeConnection (rc : RelayConn)
deriving DecidableEq, Repr

/-- What `sniff.PeekStream` reports. -/
inductive PeekOutcome where
  | err (e : GoError)
  | noMatch
  | detected (protocol : String)
deriving DecidableEq, Repr

/-- One call of `sniff.PeekStream` (package `sing-box/common/sniff`): how many bytes
it read from the connection into the scratch buffer, and what it reports. -/
structure PeekResult where
  consumed : Nat
  outcome : PeekOutcome
deriving DecidableEq, Repr

/-- Result of `b.relayer.HandShake`: the outbound connection and the handshake
duration recorded on the node, or an error. -/
inductive HandShakeResult where
  | ok (rc : Conn) (duration : Int)
  | fail (err : GoError)
deriving DecidableEq, Repr

/-- Everything outside the program that one relay call depends on: the node
`b.remotes.Next().Clone()` returns, the sniffer, the handshake client and the
outcome of `relayConn.Transport()`. -/
structure RelayWorld where
  remote : Node
  peek : PeekResult
  handshake : HandShakeResult
  transport : Option GoError
deriving DecidableEq, Repr

/-- Source `type BaseRelayServer struct`: the configuration and the connection manager's
state (the logger, the remote pool and the handshake client are in `RelayWorld`). -/
structure BaseRelayServer where
  cmgr : Cmgr
  cfg : Config
deriving DecidableEq, Repr

/-- The error of the admission check:
`fmt.Errorf("relay:%s active connection count exceed limit %d", Label, MaxConnection)`. -/
def BaseRelayServer.admissionError (b : BaseRelayServer) : GoError :=
  .errorf ("relay:" ++ b.cfg.Label ++ " active connection count exceed limit "
    ++ toString b.cfg.Options.MaxConnection)

/-- Source `func (b *BaseRelayServer) checkConnectionLimit() error`, with the calls it
makes: `&&` does not evaluate `CountConnection` when `MaxConnection <= 0`. -/
def BaseRelayServer.checkConnectionLimit (b : BaseRelayServer) : Option GoError × List RelayEv :=
  if b.cfg.Options.MaxConnection > 0 then
    if b.cmgr.CountConnection ≥ b.cfg.Options.MaxConnection then
      (some b.admissionError, [.countConnection])
    else
      (none, [.countConnection])
  else
    (none, [])

/-- The loop `for _, p := range BlockedProtocols { if protocol == p { return ... } }`:
whether it returns from inside. -/
def matchBlocked (protocol : String) : List String → Bool
  | [] => false
  | p :: rest => if protocol = p then true else matchBlocked protocol rest

/-- The error of the block-list:
`fmt.Errorf("relay:%s blocked protocol:%s", Label, Protocol)`. -/
def BaseRelayServer.blockedError (b : BaseRelayServer) (protocol : String) : GoError :=
  .errorf ("relay:" ++ b.cfg.Label ++ " blocked protocol:" ++ protocol)

/-- What `sniffAndBlockProtocol` returns and the calls it made. -/
structure SniffRun where
  conn : Conn
  err : Option GoError
  trace : List RelayEv
deriving DecidableEq, Repr

/-- Source `func (b *BaseRelayServer) sniffAndBlockProtocol(c net.Conn) (net.Conn, error)`.
`PeekStream` reads from `c` itself, so after it `c` is the drained connection. -/
def BaseRelayServer.sniffAndBlockProtocol (b : BaseRelayServer) (peek : PeekResult) (c : Conn) :
    SniffRun :=
  if b.cfg.Options.BlockedProtocols.length = 0 then
    { conn := c, err := none, trace := [] }
  else
    let r := c.read peek.consumed
    let buffer := r.1
    let c := r.2
    match peek.outcome with
    | .err _ => { conn := c, err := none, trace := [.newPacket, .peekStream] }
    | .detected protocol =>
        if matchBlocked protocol b.cfg.Options.BlockedProtocols then
          { conn := c, err := some (b.blockedError protocol), trace := [.newPacket, .peekStream] }
        else if !buffer.isEmpty then
          { conn := .cached c buffer, err := none, trace := [.newPacket, .peekStream] }
        else
          { conn := c, err := none, trace := [.newPacket, .peekStream, .bufferRelease] }
    | .noMatch =>
        if !buffer.isEmpty then
          { conn := .cached c buffer, err := none, trace := [.newPacket, .peekStream] }
        else
          { conn := c, err := none, trace := [.newPacket, .peekStream, .bufferRelease] }

/-- Source `func (b *BaseRelayServer) applyRateLimit(c net.Conn) net.Conn`. -/
def BaseRelayServer.applyRateLimit (b : BaseRelayServer) (c : Conn) : Conn :=
  if b.cfg.Options.MaxReadRateKbps > 0 then .rateLimited c b.cfg.Options.MaxReadRateKbps else c

/-- What a relay call returns, the connection manager's state afterwards and the
calls made. -/
structure RelayRun where
  err : Option GoError
  cmgr : Cmgr
  trace : List RelayEv
deriving DecidableEq, Repr

/-- The relay connection `handleRelayConn` builds. -/
def BaseRelayServer.newRelayConn (b : BaseRelayServer) (c rc : Conn) (remote : Node)
    (connType : String) : RelayConn :=
  { clientConn := c, remoteConn := rc, remote := remote, connType := connType,
    relayLabel := b.cfg.Label, options := b.cfg.Options,
    handshakeDuration := remote.HandShakeDuration }

/-- Source `func (b *BaseRelayServer) handleRelayConn(c, rc net.Conn, remote *lb.Node, connType string) error`;
`transport` is what `relayConn.Transport()` returns. -/
def BaseRelayServer.handleRelayConn (b : BaseRelayServer) (c rc : Conn) (remote : Node)
    (connType : String) (transport : Option GoError) : RelayRun :=
  let relayConn := b.newRelayConn c rc remote connType
  let cmgr1 := b.cmgr.AddConnection relayConn
  let cmgr2 := cmgr1.RemoveConnection relayConn
  { err := transport, cmgr := cmgr2,
    trace := [.addConnection relayConn, .transport relayConn, .removeConnection relayConn] }

/-- Source `func (b *BaseRelayServer) RelayTCPConn(ctx context.Context, c net.Conn) error`. -/
def BaseRelayServer.RelayTCPConn (b : BaseRelayServer) (w : RelayWorld) (c : Conn) : RelayRun :=
  let remote := w.remote
  let enter : List RelayEv := [.lbNext, .gaugeInc remote.Label METRIC_CONN_TYPE_TCP]
  let leave : List RelayEv := [.gaugeDec remote.Label METRIC_CONN_TYPE_TCP]
  let chk := b.checkConnectionLimit
  match chk.1 with
  | some err => { err := some err, cmgr := b.cmgr, trace := enter ++ chk.2 ++ leave }
  | none =>
    let sn := b.sniffAndBlockProtocol w.peek c
    match sn.err with
    | some err =>
        { err := some err, cmgr := b.cmgr, trace := enter ++ chk.2 ++ sn.trace ++ leave }
    | none =>
      let c := b.applyRateLimit sn.conn
      match w.handshake with
      | .fail err =>
          { err := some (.wrap "handshake error: " err), cmgr := b.cmgr,
            trace := enter ++ chk.2 ++ sn.trace ++ [.handShake remote true] ++ leave }
      | .ok rc duration =>
          let remote1 := { remote with HandShakeDuration := duration }
          let h := b.handleRelayConn c rc remote1 METRIC_CONN_TYPE_TCP w.transport
          { err := h.err, cmgr := h.cmgr,
            trace := enter ++ chk.2 ++ sn.trace ++ [.handShake remote true] ++ h.trace
              ++ [.rcClose] ++ leave }

/-- Source `func (b *BaseRelayServer) RelayUDPConn(ctx context.Context, c net.Conn) error`. -/
def BaseRelayServer.RelayUDPConn (b : BaseRelayServer) (w : RelayWorld) (c : Conn) : RelayRun :=
  let remote := w.remote
  let enter : List RelayEv := [.lbNext, .gaugeInc remote.Label METRIC_CONN_TYPE_UDP]
  let leave : List RelayEv := [.gaugeDec remote.Label METRIC_CONN_TYPE_UDP]
  match w.handshake with
  | .fail err =>
      { err := some (.wrap "handshake error: " err), cmgr := b.cmgr,
        trace := enter ++ [.handShake remote false] ++ leave }
  | .ok rc duration =>
      let remote1 := { remote with HandShakeDuration := duration }
      let h := b.handleRelayConn c rc remote1 METRIC_CONN_TYPE_UDP w.transport
      { err := h.err, cmgr := h.cmgr,
        trace := enter ++ [.handShake remote false] ++ h.trace ++ [.rcClose] ++ leave }

/-- The admission limit is set and reached. -/
def BaseRelayServer.limitReached (b : BaseRelayServer) : Prop :=
  b.cfg.Options.MaxConnection > 0 ∧ b.cmgr.CountConnection ≥ b.cfg.Options.MaxConnection

instance (b : BaseRelayServer) : Decidable b.limitReached := by
  unfold BaseRelayServer.limitReached; infer_instance

/-- The calls of the stages that follow the sniff: handshake, registration,
transport, deregistration and the close of the outbound connection. -/
def RelayEv.afterSniff : RelayEv → Bool
  | .handShake _ _ => true
  | .rcClose => true
  | .addConnection _ => true
  | .transport _ => true
  | .removeConnection _ => true
  | _ => false

/-- The calls of the stages that follow the admission check: the sniff and
everything after it. -/
def RelayEv.afterAdmission : RelayEv → Bool
  | .newPacket => true
  | .peekStream => true
  | .bufferRelease => true
  | ev => ev.afterSniff

/-- A relay `r1` that blocks the protocol `http`, with no admission limit and no
connection registered. -/
def blockingServer : BaseRelayServer :=
  { cmgr := { active := [] }
    cfg := { Label := "r1"
             Options := { MaxConnection := 0, BlockedProtocols := ["http"],
                          MaxReadRateKbps := 0, SniffTimeout := 3 } } }

/-- A relay `r1` with admission limit 1 and one connection registered. -/
def fullServer : BaseRelayServer :=
  { cmgr := { active := [{ clientConn := .sock 7 [], remoteConn := .sock 8 [],
                           remote := { Label := "n", Address := "1.1.1.1:80", HandShakeDuration := 4 },
                           connType := "tcp", relayLabel := "r1",
                           options := { MaxConnection := 1, BlockedProtocols := [],
                                        MaxReadRateKbps := 0, SniffTimeout := 3 },
                           handshakeDuration := 4 }] }
    cfg := { Label := "r1"
             Options := { MaxConnection := 1, BlockedProtocols := [],
                          MaxReadRateKbps := 0, SniffTimeout := 3 } } }

/-- An inbound connection with four bytes waiting to be read. -/
def inboundConn : Conn := .sock 1 [22, 3, 1, 0]

/-- A run in which the sniffer reads two bytes and reports an error (no signature
matched in time), the handshake succeeds and the transport ends cleanly. -/
def sniffErrorWorld : RelayWorld :=
  { remote := { Label := "n", Address := "1.1.1.1:80", HandShakeDuration := 0 }
    peek := { consumed := 2, outcome := .err (.errorf "sniff: no signature matched") }
    handshake := .ok (.sock 9 []) 5
    transport := none }

/-- A run in which the sniffer reads two bytes and detects `http`, the handshake
would succeed and the transport would fail. -/
def httpWorld : RelayWorld :=
  { remote := { Label := "n", Address := "1.1.1.1:80", HandShakeDuration := 0 }
    peek := { consumed := 2, outcome := .detected "http" }
    handshake := .ok (.sock 9 []) 5
    transport := some (.errorf "EOF") }

/-- A run in which the sniffer fails open after reading two bytes, the handshake
succeeds and the transport ends with the error `EOF`. -/
def transportErrorWorld : RelayWorld :=
  { sniffErrorWorld with transport := some (.errorf "EOF") }

/-- The side condition `GrowsWithin` can be evaluated. -/
def decGrowsWithin : (c : connStatsImpl) → (calls : List StatsCall) →
    Decidable (GrowsWithin c calls)
  | _, [] => isTrue trivial
  | c, .record d u :: rest =>
      have : Decidable (GrowsWithin (c.RecordTraffic d u) rest) :=
        decGrowsWithin (c.RecordTraffic d u) rest
      inferInstanceAs (Decidable (0 ≤ d ∧ 0 ≤ u ∧ c.s.down + d < 2 ^ 63 ∧ c.s.up + u < 2 ^ 63 ∧
        GrowsWithin (c.RecordTraffic d u) rest))
  | c, .reset :: rest => decGrowsWithin c.ReSetTraffic rest

instance (c : connStatsImpl) (calls : List StatsCall) : Decidable (GrowsWithin c calls) :=
  decGrowsWithin c calls

/-! ### Lemmas on the counters -/

theorem wrapInt64_add_left (a b : Int) : wrapInt64 (wrapInt64 a + b) = wrapInt64 (a + b) := by
  unfold wrapInt64
  omega

theorem wrapInt64_of_inInt64 {x : Int} (h : inInt64 x) : wrapInt64 x = x := by
  unfold inInt64 at h
  unfold wrapInt64
  omega

theorem wrapInt64_inInt64 (x : Int) : inInt64 (wrapInt64 x) := by
  unfold inInt64 wrapInt64
  omega

theorem recordAll_from (c : connStatsImpl) (pairs : List (Int × Int))
    (hd : inInt64 c.s.down) (hu : inInt64 c.s.up) :
    (recordAll c pairs).s.down = wrapInt64 (c.s.down + sumDown pairs) ∧
    (recordAll c pairs).s.up = wrapInt64 (c.s.up + sumUp pairs) := by
  induction pairs generalizing c with
  | nil =>
    simp only [recordAll, List.foldl_nil, sumDown, sumUp, List.map_nil, List.sum_nil,
      Int.add_zero]
    exact ⟨(wrapInt64_of_inInt64 hd).symm, (wrapInt64_of_inInt64 hu).symm⟩
  | cons p ps ih =>
    have h := ih (c.RecordTraffic p.1 p.2) (wrapInt64_inInt64 _) (wrapInt64_inInt64 _)
    simp only [recordAll, List.foldl_cons] at h ⊢
    rw [h.1, h.2]
    simp only [connStatsImpl.RecordTraffic, sumDown, sumUp, List.map_cons, List.sum_cons]
    rw [wrapInt64_add_left, wrapInt64_add_left, Int.add_assoc, Int.add_assoc]
    exact ⟨rfl, rfl⟩

theorem recordAll_fresh (pairs : List (Int × Int)) :
    (recordAll NewConnStats pairs).GetStats.down = wrapInt64 (sumDown pairs) ∧
    (recordAll NewConnStats pairs).GetStats.up = wrapInt64 (sumUp pairs) := by
  have h := recordAll_from NewConnStats pairs (by decide) (by decide)
  simpa [NewConnStats, connStatsImpl.GetStats] using h

theorem recordAll_perm {pairs pairs' : List (Int × Int)} (h : pairs.Perm pairs') :
    recordAll NewConnStats pairs' = recordAll NewConnStats pairs := by
  have hd : sumDown pairs' = sumDown pairs := ((h.map Prod.fst).sum_eq).symm
  have hu : sumUp pairs' = sumUp pairs := ((h.map Prod.snd).sum_eq).symm
  have h1 := recordAll_fresh pairs
  have h2 := recordAll_fresh pairs'
  rw [hd, hu] at h2
  cases hx : recordAll NewConnStats pairs with
  | mk s =>
    cases hy : recordAll NewConnStats pairs' with
    | mk s' =>
      rw [hx] at h1
      rw [hy] at h2
      cases s; cases s'
      simp only [connStatsImpl.GetStats] at h1 h2
      simp only [connStatsImpl.mk.injEq, Stats.mk.injEq]
      exact ⟨h2.2.trans h1.2.symm, h2.1.trans h1.1.symm⟩

theorem growsWithin_steps (calls : List StatsCall) :
    ∀ c : connStatsImpl, 0 ≤ c.s.down → 0 ≤ c.s.up → GrowsWithin c calls →
      (∀ pre : List StatsCall, pre <+: calls →
        0 ≤ (runCalls c pre).GetStats.down ∧ 0 ≤ (runCalls c pre).GetStats.up) ∧
      (∀ (pre : List StatsCall) (d u : Int), pre ++ [StatsCall.record d u] <+: calls →
        (runCalls c pre).GetStats.down ≤ ((runCalls c pre).RecordTraffic d u).GetStats.down ∧
        (runCalls c pre).GetStats.up ≤ ((runCalls c pre).RecordTraffic d u).GetStats.up) := by
  induction calls with
  | nil =>
    intro c hd hu _
    refine ⟨?_, ?_⟩
    · intro pre hpre
      have : pre = [] := List.prefix_nil.mp hpre
      subst this
      exact ⟨hd, hu⟩
    · intro pre d u hpre
      have := List.prefix_nil.mp hpre
      simp at this
  | cons call rest ih =>
    intro c hd hu hg
    -- the state after the first call, its non-negativity, and the tail's side condition
    have key : 0 ≤ (call.apply c).s.down ∧ 0 ≤ (call.apply c).s.up ∧
        GrowsWithin (call.apply c) rest ∧
        (∀ d u, call = StatsCall.record d u →
          c.s.down ≤ (c.RecordTraffic d u).s.down ∧ c.s.up ≤ (c.RecordTraffic d u).s.up) := by
      cases call with
      | record d u =>
        obtain ⟨h0d, h0u, hbd, hbu, hrest⟩ := hg
        have e1 : wrapInt64 (c.s.down + d) = c.s.down + d :=
          wrapInt64_of_inInt64 ⟨by omega, hbd⟩
        have e2 : wrapInt64 (c.s.up + u) = c.s.up + u :=
          wrapInt64_of_inInt64 ⟨by omega, hbu⟩
        refine ⟨?_, ?_, hrest, ?_⟩
        · simp only [StatsCall.apply, connStatsImpl.RecordTraffic, e1]; omega
        · simp only [StatsCall.apply, connStatsImpl.RecordTraffic, e2]; omega
        · intro d' u' hcall
          cases hcall
          simp only [connStatsImpl.RecordTraffic, e1, e2]
          constructor <;> omega
      | reset =>
        refine ⟨?_, ?_, hg, ?_⟩
        · simp [StatsCall.apply, connStatsImpl.ReSetTraffic, Stats.ReSet]
        · simp [StatsCall.apply, connStatsImpl.ReSetTraffic, Stats.ReSet]
        · intro d u hcall
          cases hcall
    obtain ⟨k1, k2, k3, k4⟩ := key
    have ih' := ih (call.apply c) k1 k2 k3
    refine ⟨?_, ?_⟩
    · intro pre hpre
      cases pre with
      | nil => exact ⟨hd, hu⟩
      | cons x xs =>
        obtain ⟨hx, hxs⟩ := List.cons_prefix_cons.mp hpre
        subst hx
        exact ih'.1 xs hxs
    · intro pre d u hpre
      cases pre with
      | nil =>
        obtain ⟨hx, _⟩ := List.cons_prefix_cons.mp hpre
        exact k4 d u hx.symm
      | cons x xs =>
        obtain ⟨hx, hxs⟩ := List.cons_prefix_cons.mp hpre
        subst hx
        exact ih'.2 xs d u hxs

/-! ### Claims on `stats.go` -/

/-- C4 (as stated, refuted): two `RecordTraffic` calls whose `down` arguments add
up to `2^63` leave `down` at `-2^63`, not at the sum of the arguments. -/
theorem C4_sum_overflow_counterexample :
    (recordAll NewConnStats [(9223372036854775807, 0), (1, 0)]).GetStats.down
      ≠ sumDown [(9223372036854775807, 0), (1, 0)] := by
  decide

/-- C4 (amended): after `RecordTraffic(d_i, u_i)` for every pair of a list, applied
to a fresh `NewConnStats()`, `down` is the sum of the `d_i` and `up` the sum of the
`u_i`, each reduced to 64-bit two's complement, hence equal to the exact sum
whenever that sum is an `int64`; any reordering of the calls gives the same
counters; and a following `ReSetTraffic()` leaves both counters at 0. -/
theorem C4_recordTraffic_sums (pairs pairs' : List (Int × Int)) (h : pairs.Perm pairs') :
    (recordAll NewConnStats pairs).GetStats.down = wrapInt64 (sumDown pairs) ∧
    (recordAll NewConnStats pairs).GetStats.up = wrapInt64 (sumUp pairs) ∧
    (inInt64 (sumDown pairs) → (recordAll NewConnStats pairs).GetStats.down = sumDown pairs) ∧
    (inInt64 (sumUp pairs) → (recordAll NewConnStats pairs).GetStats.up = sumUp pairs) ∧
    recordAll NewConnStats pairs' = recordAll NewConnStats pairs ∧
    (recordAll NewConnStats pairs).ReSetTraffic.GetStats = { up := 0, down := 0 } := by
  obtain ⟨hd, hu⟩ := recordAll_fresh pairs
  refine ⟨hd, hu, ?_, ?_, recordAll_perm h, rfl⟩
  · intro hr; rw [hd, wrapInt64_of_inInt64 hr]
  · intro hr; rw [hu, wrapInt64_of_inInt64 hr]

/-- Witness for C4: three calls and a reordering of them. -/
theorem C4_recordTraffic_sums_witness :
    (recordAll NewConnStats [(1, 2), (3, 4), (5, 6)]).GetStats.down = 9 ∧
    (recordAll NewConnStats [(1, 2), (3, 4), (5, 6)]).GetStats.up = 12 ∧
    recordAll NewConnStats [(5, 6), (1, 2), (3, 4)] =
      recordAll NewConnStats [(1, 2), (3, 4), (5, 6)] := by
  have hperm : [((1 : Int), (2 : Int)), (3, 4), (5, 6)].Perm [(5, 6), (1, 2), (3, 4)] := by
    decide
  have h := C4_recordTraffic_sums [(1, 2), (3, 4), (5, 6)] [(5, 6), (1, 2), (3, 4)] hperm
  exact ⟨h.2.2.1 (by decide), h.2.2.2.1 (by decide), h.2.2.2.2.1⟩

/-- C8 (as stated, refuted): `RecordTraffic` accepts any `int64`; a negative
argument on fresh counters leaves `down` negative, below its previous value. -/
theorem C8_negative_counterexample :
    ¬ (0 ≤ (runCalls NewConnStats [StatsCall.record (-1) 0]).GetStats.down) ∧
    ¬ (NewConnStats.GetStats.down ≤ (NewConnStats.RecordTraffic (-1) 0).GetStats.down) := by
  decide

/-- C8 (amended): for every sequence of `RecordTraffic` and `ReSetTraffic` calls on
a fresh `NewConnStats()` in which every `RecordTraffic` argument is non-negative
and no addition exceeds the largest `int64`, both counters are non-negative after
every call, and every `RecordTraffic` call leaves each counter greater than or equal
to its value before that call. -/
theorem C8_counters_grow (calls : List StatsCall) (hg : GrowsWithin NewConnStats calls) :
    (∀ pre : List StatsCall, pre <+: calls →
      0 ≤ (runCalls NewConnStats pre).GetStats.down ∧
      0 ≤ (runCalls NewConnStats pre).GetStats.up) ∧
    (∀ (pre : List StatsCall) (d u : Int), pre ++ [StatsCall.record d u] <+: calls →
      (runCalls NewConnStats pre).GetStats.down
        ≤ ((runCalls NewConnStats pre).RecordTraffic d u).GetStats.down ∧
      (runCalls NewConnStats pre).GetStats.up
        ≤ ((runCalls NewConnStats pre).RecordTraffic d u).GetStats.up) :=
  growsWithin_steps calls NewConnStats (by decide) (by decide) hg

/-- Witness for C8: record, record, reset, record. -/
theorem C8_counters_grow_witness :
    GrowsWithin NewConnStats
      [StatsCall.record 3 4, StatsCall.record 0 7, StatsCall.reset, StatsCall.record 5 0] ∧
    0 ≤ (runCalls NewConnStats [StatsCall.record 3 4, StatsCall.record 0 7]).GetStats.down ∧
    (runCalls NewConnStats [StatsCall.record 3 4]).GetStats.up
      ≤ ((runCalls NewConnStats [StatsCall.record 3 4]).RecordTraffic 0 7).GetStats.up := by
  have hg : GrowsWithin NewConnStats
      [StatsCall.record 3 4, StatsCall.record 0 7, StatsCall.reset, StatsCall.record 5 0] := by
    decide
  have h := C8_counters_grow _ hg
  refine ⟨hg, (h.1 [StatsCall.record 3 4, StatsCall.record 0 7] ?_).1,
    (h.2 [StatsCall.record 3 4] 0 7 ?_).2⟩
  · exact ⟨[StatsCall.reset, StatsCall.record 5 0], rfl⟩
  · exact ⟨[StatsCall.reset, StatsCall.record 5 0], rfl⟩


/-! ### Lemmas on the session table -/

theorem mapGet_none_iff {V : Type} (m : GoMap V) (k : String) :
    mapGet m k = none ↔ ∀ e ∈ m, e.1 ≠ k := by
  induction m with
  | nil => simp [mapGet]
  | cons e rest ih =>
    by_cases h : e.1 = k
    · simp [mapGet, h]
    · simp [mapGet, h, ih]

theorem mapGet_mem {V : Type} {m : GoMap V} {k : String} {v : V} (h : mapGet m k = some v) :
    (k, v) ∈ m := by
  induction m with
  | nil => simp [mapGet] at h
  | cons e rest ih =>
    by_cases hk : e.1 = k
    · simp only [mapGet, hk, if_true, Option.some.injEq] at h
      have : e = (k, v) := by
        cases e; simp_all
      simp [this]
    · simp only [mapGet, hk, if_false] at h
      exact List.mem_cons_of_mem _ (ih h)

theorem mapDelete_of_get_none {V : Type} {m : GoMap V} {k : String} (h : mapGet m k = none) :
    mapDelete m k = m := by
  unfold mapDelete
  rw [List.filter_eq_self]
  intro e he
  simpa using (mapGet_none_iff m k).mp h e he

theorem mapGet_mapDelete_self {V : Type} (m : GoMap V) (k : String) :
    mapGet (mapDelete m k) k = none := by
  rw [mapGet_none_iff]
  intro e he
  have := (List.mem_filter.mp he).2
  simpa using this

theorem mapGet_mapDelete_other {V : Type} (m : GoMap V) {k k' : String} (h : k' ≠ k) :
    mapGet (mapDelete m k) k' = mapGet m k' := by
  induction m with
  | nil => rfl
  | cons e rest ih =>
    unfold mapDelete at ih ⊢
    by_cases hk : e.1 = k
    · have hk' : ¬ (e.1 = k') := by rw [hk]; exact fun h' => h h'.symm
      rw [List.filter_cons]
      simp only [hk, decide_True, Bool.not_true, Bool.false_eq_true, if_false]
      rw [ih]
      have hk2 : ¬ (k = k') := fun h' => h h'.symm
      simp [mapGet, hk, hk2]
    · rw [List.filter_cons]
      simp only [hk, decide_False, Bool.not_false, if_true]
      by_cases hk' : e.1 = k'
      · simp [mapGet, hk']
      · simp only [mapGet, hk', if_false]
        exact ih

theorem mapGet_mapSet_self {V : Type} (m : GoMap V) (k : String) (v : V) :
    mapGet (mapSet m k v) k = some v := by
  simp [mapSet, mapGet]

theorem mapGet_mapSet_other {V : Type} (m : GoMap V) {k k' : String} (v : V) (h : k' ≠ k) :
    mapGet (mapSet m k v) k' = mapGet m k' := by
  have hk : ¬ (k = k') := fun h' => h h'.symm
  simp only [mapSet, mapGet, hk, if_false]
  exact mapGet_mapDelete_other m h

theorem mapCount_zero_of_get_none {V : Type} {m : GoMap V} {k : String}
    (h : mapGet m k = none) : mapCount m k = 0 := by
  unfold mapCount
  rw [List.length_eq_zero, List.filter_eq_nil_iff]
  intro e he
  simpa using (mapGet_none_iff m k).mp h e he

theorem mapCount_mapSet_self {V : Type} (m : GoMap V) (k : String) (v : V) :
    mapCount (mapSet m k v) k = 1 := by
  have h0 := mapCount_zero_of_get_none (mapGet_mapDelete_self m k)
  unfold mapCount at h0 ⊢
  simp [mapSet, List.filter_cons, h0]

theorem mapCount_one_of_get_some {V : Type} {m : GoMap V} {k : String} {v : V}
    (hnd : (m.map Prod.fst).Nodup) (h : mapGet m k = some v) : mapCount m k = 1 := by
  induction m with
  | nil => simp [mapGet] at h
  | cons e rest ih =>
    rw [List.map_cons, List.nodup_cons] at hnd
    by_cases hk : e.1 = k
    · have hnone : mapGet rest k = none := by
        rw [mapGet_none_iff]
        intro e' he' heq
        apply hnd.1
        rw [hk, ← heq]
        exact List.mem_map_of_mem _ he'
      have h0 := mapCount_zero_of_get_none hnone
      unfold mapCount at h0 ⊢
      simp [List.filter_cons, hk, h0]
    · simp only [mapGet, hk, if_false] at h
      have h1 := ih hnd.2 h
      unfold mapCount at h1 ⊢
      simp [List.filter_cons, hk, h1]

theorem mapCount_mapSet_other {V : Type} (m : GoMap V) {k k' : String} (v : V) (h : k' ≠ k) :
    mapCount (mapSet m k v) k' = mapCount m k' := by
  have hk : ¬ (k = k') := fun h' => h h'.symm
  unfold mapCount mapSet mapDelete
  simp only [List.filter_cons, hk, decide_False, Bool.false_eq_true, if_false, List.filter_filter]
  congr 1
  apply List.filter_congr
  intro e _
  by_cases he : e.1 = k'
  · simp [he, h]
  · simp [he]

theorem wf_getOrCreate {raw : Raw} (hwf : raw.WF) (a : UDPAddr) :
    (raw.GetOrCreateBufferCh a).raw.WF := by
  unfold Raw.GetOrCreateBufferCh
  cases hg : mapGet raw.UDPBufferChMap a.String with
  | some bc => exact hwf
  | none =>
    obtain ⟨h1, h2, h3⟩ := hwf
    simp only [Raw.WF, mapSet, mapDelete_of_get_none hg, newudpBufferCh, List.map_cons,
      List.nodup_cons, List.mem_cons, forall_eq_or_imp]
    refine ⟨⟨?_, h1⟩, ⟨?_, h2⟩, ?_, ?_⟩
    · intro hmem
      obtain ⟨e, he, hek⟩ := List.mem_map.mp hmem
      exact (mapGet_none_iff _ _).mp hg e he hek
    · intro hmem
      obtain ⟨e, he, hek⟩ := List.mem_map.mp hmem
      have := h3 e he
      omega
    · omega
    · intro e he
      have := h3 e he
      omega

theorem wf_ptr_ne {raw : Raw} (hwf : raw.WF) {k k' : String} {v v' : BufferCh}
    (h : mapGet raw.UDPBufferChMap k = some v) (h' : mapGet raw.UDPBufferChMap k' = some v')
    (hne : k' ≠ k) : v'.ptr ≠ v.ptr := by
  obtain ⟨_, h2, _⟩ := hwf
  have hm := mapGet_mem h
  have hm' := mapGet_mem h'
  generalize raw.UDPBufferChMap = m at h2 hm hm'
  induction m with
  | nil => simp at hm
  | cons e rest ih =>
    rw [List.map_cons, List.nodup_cons] at h2
    rcases List.mem_cons.mp hm with he | he
    · rcases List.mem_cons.mp hm' with he' | he'
      · rw [← he] at he'
        exact absurd (congrArg Prod.fst he') hne
      · intro heq
        apply h2.1
        have : e.2.ptr = v'.ptr := by rw [← he, heq]
        rw [this]
        exact List.mem_map_of_mem (fun e => e.2.ptr) he'
    · rcases List.mem_cons.mp hm' with he' | he'
      · intro heq
        apply h2.1
        have : e.2.ptr = v.ptr := by rw [← he', heq]
        rw [this]
        exact List.mem_map_of_mem (fun e => e.2.ptr) he
      · exact ih h2.2 he he'

theorem getOrCreate_get (raw : Raw) (a : UDPAddr) :
    mapGet (raw.GetOrCreateBufferCh a).raw.UDPBufferChMap a.String
      = some (raw.GetOrCreateBufferCh a).bc := by
  unfold Raw.GetOrCreateBufferCh
  cases hg : mapGet raw.UDPBufferChMap a.String with
  | some bc => simpa using hg
  | none => simp [mapGet_mapSet_self]

theorem getOrCreate_other (raw : Raw) (a : UDPAddr) {k : String} (hk : k ≠ a.String) :
    mapGet (raw.GetOrCreateBufferCh a).raw.UDPBufferChMap k = mapGet raw.UDPBufferChMap k ∧
    mapCount (raw.GetOrCreateBufferCh a).raw.UDPBufferChMap k = mapCount raw.UDPBufferChMap k := by
  unfold Raw.GetOrCreateBufferCh
  cases hg : mapGet raw.UDPBufferChMap a.String with
  | some bc => exact ⟨rfl, rfl⟩
  | none => exact ⟨mapGet_mapSet_other _ _ hk, mapCount_mapSet_other _ _ hk⟩

theorem getOrCreate_count {raw : Raw} (hwf : raw.WF) (a : UDPAddr) :
    mapCount (raw.GetOrCreateBufferCh a).raw.UDPBufferChMap a.String = 1 :=
  mapCount_one_of_get_some (wf_getOrCreate hwf a).1 (getOrCreate_get raw a)

theorem getOrCreate_again (raw : Raw) (a : UDPAddr) :
    (raw.GetOrCreateBufferCh a).raw.GetOrCreateBufferCh a =
      { bc := (raw.GetOrCreateBufferCh a).bc, raw := (raw.GetOrCreateBufferCh a).raw,
        trace := [.lock, .mapLookup a.String, .unlock] } := by
  have h := getOrCreate_get raw a
  generalize raw.GetOrCreateBufferCh a = r at h
  unfold Raw.GetOrCreateBufferCh
  rw [h]

theorem getOrCreate_fresh_ptr {raw : Raw} (hwf : raw.WF) (a : UDPAddr) :
    (raw.GetOrCreateBufferCh a).bc.ptr < (raw.GetOrCreateBufferCh a).raw.allocated := by
  have hw := wf_getOrCreate hwf a
  exact hw.2.2 _ (mapGet_mem (getOrCreate_get raw a))

theorem getOrCreate_distinct {raw : Raw} (hwf : raw.WF) {k : String} {v : BufferCh}
    (h : mapGet raw.UDPBufferChMap k = some v) (b : UDPAddr) (hne : b.String ≠ k) :
    (raw.GetOrCreateBufferCh b).bc.ptr ≠ v.ptr := by
  unfold Raw.GetOrCreateBufferCh
  cases hg : mapGet raw.UDPBufferChMap b.String with
  | some bc => exact wf_ptr_ne hwf h hg hne
  | none =>
    have hlt : v.ptr < raw.allocated := hwf.2.2 (k, v) (mapGet_mem h)
    simp only [newudpBufferCh]
    omega

/-! ### Lemmas on `HandleUDPConn` -/

theorem interleave_perm (s : List Bool) :
    ∀ xs ys : List RawEv, (interleave s xs ys).Perm (xs ++ ys) := by
  induction s with
  | nil => intro xs ys; exact List.Perm.refl _
  | cons pick s ih =>
    intro xs ys
    cases xs with
    | nil => simp [interleave]
    | cons x xs =>
      cases ys with
      | nil => simp [interleave]
      | cons y ys =>
        simp only [interleave]
        split
        · exact (ih xs (y :: ys)).cons x
        · have hmid : (x :: xs ++ y :: ys).Perm (y :: (x :: xs ++ ys)) := List.perm_middle
          exact ((ih (x :: xs) ys).cons y).trans hmid.symm

theorem inboundLoop_taskEv (rounds : List Nat) (ending : InboundEnd) :
    ∀ wt : Nat, ∀ ev ∈ (inboundLoop rounds ending wt).1, ev.isTaskEv = true := by
  induction rounds with
  | nil =>
    intro wt ev hev
    cases ending with
    | readError =>
      simp only [inboundLoop, List.mem_cons, List.mem_singleton, List.not_mem_nil,
        or_false] at hev
      rcases hev with h | h <;> simp [h, RawEv.isTaskEv]
    | deadline =>
      simp only [inboundLoop, List.mem_cons, List.mem_singleton, List.not_mem_nil,
        or_false] at hev
      rcases hev with h | h <;> simp [h, RawEv.isTaskEv]
    | writeBackError n =>
      simp only [inboundLoop, List.mem_cons, List.mem_singleton, List.not_mem_nil,
        or_false] at hev
      rcases hev with h | h | h <;> simp [h, RawEv.isTaskEv]
  | cons n rest ih =>
    intro wt ev hev
    simp only [inboundLoop, List.mem_cons] at hev
    rcases hev with h | h | h | h
    · simp [h, RawEv.isTaskEv]
    · simp [h, RawEv.isTaskEv]
    · simp [h, RawEv.isTaskEv]
    · exact ih _ ev h

theorem inboundTask_taskEv (remote : String) (run : InboundRun) :
    ∀ ev ∈ inboundTask remote run, ev.isTaskEv = true := by
  intro ev hev
  simp only [inboundTask, List.mem_append, List.mem_cons, List.mem_singleton,
    List.not_mem_nil, or_false] at hev
  rcases hev with h | h | h | h
  · exact inboundLoop_taskEv _ _ _ ev h
  · simp [h, RawEv.isTaskEv]
  · simp [h, RawEv.isTaskEv]
  · simp [h, RawEv.isTaskEv]

theorem outboundTask_taskEv (remote : String) (step : OutboundStep) :
    ∀ ev ∈ outboundTask remote step, ev.isTaskEv = true := by
  intro ev hev
  cases step with
  | cancelled =>
    simp only [outboundTask, List.mem_cons, List.mem_singleton, List.not_mem_nil,
      or_false] at hev
    rcases hev with h | h <;> simp [h, RawEv.isTaskEv]
  | payload b ok =>
    cases ok <;>
      simp only [outboundTask, List.mem_cons, List.mem_singleton, List.not_mem_nil,
        or_false] at hev
    · rcases hev with h | h | h <;> simp [h, RawEv.isTaskEv]
    · rcases hev with h | h | h | h | h <;> simp [h, RawEv.isTaskEv]

theorem outboundTask_done (remote : String) (step : OutboundStep) :
    RawEv.wgDone 2 ∈ outboundTask remote step := by
  cases step with
  | cancelled => simp [outboundTask]
  | payload b ok => cases ok <;> simp [outboundTask]

theorem getOrCreate_trace_no_teardown (raw : Raw) (a : UDPAddr) :
    ∀ ev ∈ (raw.GetOrCreateBufferCh a).trace, ev.isTeardown = false := by
  intro ev hev
  unfold Raw.GetOrCreateBufferCh at hev
  cases hg : mapGet raw.UDPBufferChMap a.String with
  | some bc =>
    simp only [hg, List.mem_cons, List.mem_singleton, List.not_mem_nil, or_false] at hev
    rcases hev with h | h | h <;> simp [h, RawEv.isTeardown]
  | none =>
    simp only [hg, List.mem_cons, List.mem_singleton, List.not_mem_nil, or_false] at hev
    rcases hev with h | h | h | h <;> simp [h, RawEv.isTeardown]

theorem getOrCreate_lockDiscipline (raw : Raw) (a : UDPAddr) :
    lockDiscipline false (raw.GetOrCreateBufferCh a).trace = true := by
  unfold Raw.GetOrCreateBufferCh
  cases hg : mapGet raw.UDPBufferChMap a.String <;> simp [lockDiscipline]

theorem tasks_taskEv (w : UDPWorld) :
    ∀ ev ∈ interleave w.schedule (inboundTask w.remote w.inbound)
      ([RawEv.wgAdd, RawEv.go 2] ++ outboundTask w.remote w.outbound), ev.isTaskEv = true := by
  intro ev hev
  have hmem := (interleave_perm w.schedule _ _).mem_iff.mp hev
  simp only [List.mem_append, List.mem_cons, List.mem_singleton, List.not_mem_nil,
    or_false] at hmem
  rcases hmem with h | (h | h) | h
  · exact inboundTask_taskEv _ _ ev h
  · simp [h, RawEv.isTaskEv]
  · simp [h, RawEv.isTaskEv]
  · exact outboundTask_taskEv _ _ ev h

theorem taskEv_not_teardown {ev : RawEv} (h : ev.isTaskEv = true) : ev.isTeardown = false := by
  cases ev <;> simp [RawEv.isTaskEv, RawEv.isTeardown] at h ⊢

theorem taskEv_ne_lock {ev : RawEv} (h : ev.isTaskEv = true) : ev ≠ RawEv.lock := by
  intro heq
  rw [heq] at h
  simp [RawEv.isTaskEv] at h

theorem tasks_no_teardown (w : UDPWorld) :
    ∀ ev ∈ interleave w.schedule (inboundTask w.remote w.inbound)
      ([RawEv.wgAdd, RawEv.go 2] ++ outboundTask w.remote w.outbound), ev.isTeardown = false :=
  fun ev hev => taskEv_not_teardown (tasks_taskEv w ev hev)

theorem lockDiscipline_delete_unheld (k : String) (zs : List RawEv) :
    ∀ ys : List RawEv, (∀ ev ∈ ys, ev ≠ RawEv.lock) →
      lockDiscipline false (ys ++ RawEv.mapDelete k :: zs) = false := by
  intro ys
  induction ys with
  | nil => intro _; simp [lockDiscipline]
  | cons y ys ih =>
    intro hno
    have hrest := ih (fun ev hev => hno ev (List.mem_cons_of_mem _ hev))
    have hy : y ≠ RawEv.lock := hno y (List.mem_cons_self _ _)
    cases y <;> simp_all [lockDiscipline]

theorem lockDiscipline_after_unlock {rest : List RawEv}
    (hrest : lockDiscipline false rest = false) :
    ∀ (xs : List RawEv) (held : Bool),
      lockDiscipline held (xs ++ RawEv.unlock :: rest) = false := by
  intro xs
  induction xs with
  | nil => intro held; simpa [lockDiscipline] using hrest
  | cons x xs ih =>
    intro held
    cases x <;> simp [lockDiscipline, ih]

theorem getOrCreate_trace_ends_unlock (raw : Raw) (a : UDPAddr) :
    ∃ xs : List RawEv, (raw.GetOrCreateBufferCh a).trace = xs ++ [RawEv.unlock] := by
  unfold Raw.GetOrCreateBufferCh
  cases hg : mapGet raw.UDPBufferChMap a.String with
  | some bc => exact ⟨[.lock, .mapLookup a.String], rfl⟩
  | none =>
    exact ⟨[.lock, .mapLookup a.String, .mapInsert a.String (newudpBufferCh raw.allocated a).ptr],
      rfl⟩

/-- In every run of `HandleUDPConn` whose dial succeeds, the lock discipline fails
on the trace. -/
theorem handleUDPConn_breaks_lockDiscipline (raw : Raw) (uaddr : UDPAddr) (w : UDPWorld)
    (hd : w.dialed = true) :
    lockDiscipline false (raw.HandleUDPConn uaddr w).trace = false := by
  obtain ⟨xs, hxs⟩ := getOrCreate_trace_ends_unlock raw uaddr
  have htrace : (raw.HandleUDPConn uaddr w).trace
      = ([RawEv.lbNext, RawEv.gaugeInc w.remote] ++ xs) ++ RawEv.unlock ::
          (([RawEv.resolveUDPAddr w.remote, RawEv.dialUDP, RawEv.poolGet, RawEv.wgAdd, RawEv.go 1]
            ++ interleave w.schedule (inboundTask w.remote w.inbound)
                ([RawEv.wgAdd, RawEv.go 2] ++ outboundTask w.remote w.outbound)
            ++ [RawEv.wgWait, RawEv.poolPut, RawEv.rcClose])
          ++ RawEv.mapDelete uaddr.String :: [RawEv.gaugeDec w.remote]) := by
    simp [Raw.HandleUDPConn, hd, hxs]
  rw [htrace]
  apply lockDiscipline_after_unlock
  apply lockDiscipline_delete_unheld
  intro ev hev
  rcases List.mem_append.mp hev with h2 | h
  · rcases List.mem_append.mp h2 with h | h
    · simp only [List.mem_cons, List.mem_singleton, List.not_mem_nil, or_false] at h
      rcases h with h | h | h | h | h <;> simp [h]
    · exact taskEv_ne_lock (tasks_taskEv w ev h)
  · simp only [List.mem_cons, List.mem_singleton, List.not_mem_nil, or_false] at h
    rcases h with h | h | h <;> simp [h]

/-- In every run of `HandleUDPConn` whose dial fails, the table holds an entry for
the client address on return, whether or not it held one before. -/
theorem handleUDPConn_failed_dial_registers (raw : Raw) (uaddr : UDPAddr) (w : UDPWorld)
    (hd : w.dialed = false) :
    mapGet (raw.HandleUDPConn uaddr w).raw.UDPBufferChMap uaddr.String
      = some (raw.GetOrCreateBufferCh uaddr).bc := by
  simp only [Raw.HandleUDPConn, hd, Bool.false_eq_true, if_false]
  exact getOrCreate_get raw uaddr

theorem tasks_done (w : UDPWorld) :
    RawEv.wgDone 1 ∈ interleave w.schedule (inboundTask w.remote w.inbound)
      ([RawEv.wgAdd, RawEv.go 2] ++ outboundTask w.remote w.outbound) ∧
    RawEv.wgDone 2 ∈ interleave w.schedule (inboundTask w.remote w.inbound)
      ([RawEv.wgAdd, RawEv.go 2] ++ outboundTask w.remote w.outbound) := by
  constructor
  · apply (interleave_perm w.schedule _ _).mem_iff.mpr
    simp [inboundTask]
  · apply (interleave_perm w.schedule _ _).mem_iff.mpr
    have := outboundTask_done w.remote w.outbound
    simp [this]

/-! ### Claims on `raw.go` -/

/-- C5: for every session table satisfying the table invariant and every client
address `a`, `GetOrCreateBufferCh(a)` returns the session stored under `a.String()`
after the call, with exactly one entry under that key; a second call with `a`
returns the same session and leaves the table unchanged; entries under other keys
are not modified; and a call with an address `b` whose string form differs returns a
session distinct from that of `a`, stored under its own key (a newly allocated one
when `b` had no entry), with the entry of `a` kept. -/
theorem C5_getOrCreateBufferCh (raw : Raw) (a b : UDPAddr) (hwf : raw.WF) :
    mapGet (raw.GetOrCreateBufferCh a).raw.UDPBufferChMap a.String
      = some (raw.GetOrCreateBufferCh a).bc ∧
    mapCount (raw.GetOrCreateBufferCh a).raw.UDPBufferChMap a.String = 1 ∧
    ((raw.GetOrCreateBufferCh a).raw.GetOrCreateBufferCh a).bc = (raw.GetOrCreateBufferCh a).bc ∧
    ((raw.GetOrCreateBufferCh a).raw.GetOrCreateBufferCh a).raw = (raw.GetOrCreateBufferCh a).raw ∧
    (∀ k : String, k ≠ a.String →
      mapGet (raw.GetOrCreateBufferCh a).raw.UDPBufferChMap k = mapGet raw.UDPBufferChMap k ∧
      mapCount (raw.GetOrCreateBufferCh a).raw.UDPBufferChMap k
        = mapCount raw.UDPBufferChMap k) ∧
    (b.String ≠ a.String →
      ((raw.GetOrCreateBufferCh a).raw.GetOrCreateBufferCh b).bc
        ≠ (raw.GetOrCreateBufferCh a).bc ∧
      mapGet ((raw.GetOrCreateBufferCh a).raw.GetOrCreateBufferCh b).raw.UDPBufferChMap b.String
        = some ((raw.GetOrCreateBufferCh a).raw.GetOrCreateBufferCh b).bc ∧
      mapGet ((raw.GetOrCreateBufferCh a).raw.GetOrCreateBufferCh b).raw.UDPBufferChMap a.String
        = some (raw.GetOrCreateBufferCh a).bc ∧
      mapCount ((raw.GetOrCreateBufferCh a).raw.GetOrCreateBufferCh b).raw.UDPBufferChMap
        b.String = 1 ∧
      mapCount ((raw.GetOrCreateBufferCh a).raw.GetOrCreateBufferCh b).raw.UDPBufferChMap
        a.String = 1 ∧
      (mapGet raw.UDPBufferChMap b.String = none →
        ((raw.GetOrCreateBufferCh a).raw.GetOrCreateBufferCh b).bc
          = newudpBufferCh (raw.GetOrCreateBufferCh a).raw.allocated b)) := by
  have hwf1 := wf_getOrCreate hwf a
  have hget := getOrCreate_get raw a
  have hagain := getOrCreate_again raw a
  refine ⟨hget, getOrCreate_count hwf a, ?_, ?_, ?_, ?_⟩
  · rw [hagain]
  · rw [hagain]
  · intro k hk
    exact getOrCreate_other raw a hk
  · intro hne
    have hother := getOrCreate_other (raw.GetOrCreateBufferCh a).raw b (k := a.String)
      (fun h => hne h.symm)
    refine ⟨?_, getOrCreate_get _ b, ?_, getOrCreate_count hwf1 b, ?_, ?_⟩
    · intro heq
      exact getOrCreate_distinct hwf1 hget b hne (congrArg BufferCh.ptr heq)
    · rw [hother.1, hget]
    · rw [hother.2]; exact getOrCreate_count hwf a
    · intro hnone
      have h1 : mapGet (raw.GetOrCreateBufferCh a).raw.UDPBufferChMap b.String = none := by
        rw [(getOrCreate_other raw a hne).1]; exact hnone
      generalize (raw.GetOrCreateBufferCh a).raw = r1 at h1
      unfold Raw.GetOrCreateBufferCh
      rw [h1]

/-- Witness for C5: a table holding one session, a new client, then another. -/
theorem C5_getOrCreateBufferCh_witness :
    oneSessionRaw.WF ∧ clientB.String ≠ clientA.String ∧
    (oneSessionRaw.GetOrCreateBufferCh clientA).bc.ptr = 1 ∧
    ((oneSessionRaw.GetOrCreateBufferCh clientA).raw.GetOrCreateBufferCh clientB).bc
      ≠ (oneSessionRaw.GetOrCreateBufferCh clientA).bc :=
  ⟨by decide, by decide, by decide,
    ((C5_getOrCreateBufferCh oneSessionRaw clientA clientB (by decide)).2.2.2.2.2
      (by decide)).1⟩

/-- C6 (evaluation at the failing input): on an empty table, a `HandleUDPConn` whose
address resolution fails returns with an entry for the client address registered,
after the trace shown: no deletion follows the insertion. -/
theorem C6_failed_dial_leaves_entry :
    mapGet emptyRaw.UDPBufferChMap clientA.String = none ∧
    unresolvedWorld.dialed = false ∧
    (emptyRaw.HandleUDPConn clientA unresolvedWorld).raw.UDPBufferChMap
      = [("10.0.0.1:53", { ptr := 0, addr := clientA })] ∧
    (emptyRaw.HandleUDPConn clientA unresolvedWorld).trace
      = [.lbNext, .gaugeInc "remote.invalid:53", .lock, .mapLookup "10.0.0.1:53",
         .mapInsert "10.0.0.1:53" 0, .unlock, .resolveUDPAddr "remote.invalid:53", .dialUDP,
         .gaugeDec "remote.invalid:53"] := by
  decide

/-- C7: for every run of `HandleUDPConn` in which the outbound socket was dialed,
whatever ends the read loop and whichever case the queue task takes, under every
schedule of the two tasks: the trace is `pre ++ [rc.Close(), delete(table, key)] ++ post`
where both tasks' `wg.Done()` lie in `pre` and neither `pre` nor `post` holds a close
or a table deletion; the socket is closed exactly once; and the table has no entry
for the client address when the call returns. -/
theorem C7_teardown_after_tasks (raw : Raw) (uaddr : UDPAddr) (w : UDPWorld)
    (hd : w.dialed = true) :
    (∃ pre post : List RawEv,
      (raw.HandleUDPConn uaddr w).trace
        = pre ++ RawEv.rcClose :: RawEv.mapDelete uaddr.String :: post ∧
      RawEv.wgDone 1 ∈ pre ∧ RawEv.wgDone 2 ∈ pre ∧
      (∀ ev ∈ pre, ev.isTeardown = false) ∧ (∀ ev ∈ post, ev.isTeardown = false)) ∧
    List.count RawEv.rcClose (raw.HandleUDPConn uaddr w).trace = 1 ∧
    mapGet (raw.HandleUDPConn uaddr w).raw.UDPBufferChMap uaddr.String = none := by
  have hpre : ∀ ev ∈ [RawEv.lbNext, RawEv.gaugeInc w.remote] ++ (raw.GetOrCreateBufferCh uaddr).trace
      ++ [RawEv.resolveUDPAddr w.remote, RawEv.dialUDP] ++ [RawEv.poolGet, RawEv.wgAdd, RawEv.go 1]
      ++ interleave w.schedule (inboundTask w.remote w.inbound)
          ([RawEv.wgAdd, RawEv.go 2] ++ outboundTask w.remote w.outbound)
      ++ [RawEv.wgWait, RawEv.poolPut], ev.isTeardown = false := by
    intro ev hev
    rcases List.mem_append.mp hev with h5 | h
    · rcases List.mem_append.mp h5 with h4 | h
      · rcases List.mem_append.mp h4 with h3 | h
        · rcases List.mem_append.mp h3 with h2 | h
          · rcases List.mem_append.mp h2 with h | h
            · simp only [List.mem_cons, List.mem_singleton, List.not_mem_nil, or_false] at h
              rcases h with h | h <;> simp [h, RawEv.isTeardown]
            · exact getOrCreate_trace_no_teardown raw uaddr ev h
          · simp only [List.mem_cons, List.mem_singleton, List.not_mem_nil, or_false] at h
            rcases h with h | h <;> simp [h, RawEv.isTeardown]
        · simp only [List.mem_cons, List.mem_singleton, List.not_mem_nil, or_false] at h
          rcases h with h | h | h <;> simp [h, RawEv.isTeardown]
      · exact tasks_no_teardown w ev h
    · simp only [List.mem_cons, List.mem_singleton, List.not_mem_nil, or_false] at h
      rcases h with h | h <;> simp [h, RawEv.isTeardown]
  have htrace : (raw.HandleUDPConn uaddr w).trace
      = ([RawEv.lbNext, RawEv.gaugeInc w.remote] ++ (raw.GetOrCreateBufferCh uaddr).trace
          ++ [RawEv.resolveUDPAddr w.remote, RawEv.dialUDP]
          ++ [RawEv.poolGet, RawEv.wgAdd, RawEv.go 1]
          ++ interleave w.schedule (inboundTask w.remote w.inbound)
              ([RawEv.wgAdd, RawEv.go 2] ++ outboundTask w.remote w.outbound)
          ++ [RawEv.wgWait, RawEv.poolPut])
        ++ RawEv.rcClose :: RawEv.mapDelete uaddr.String :: [RawEv.gaugeDec w.remote] := by
    simp [Raw.HandleUDPConn, hd]
  refine ⟨⟨_, _, htrace, ?_, ?_, hpre, ?_⟩, ?_, ?_⟩
  · have := (tasks_done w).1
    simp only [List.mem_append]
    exact Or.inl (Or.inr this)
  · have := (tasks_done w).2
    simp only [List.mem_append]
    exact Or.inl (Or.inr this)
  · intro ev hev
    simp only [List.mem_singleton] at hev
    simp [hev, RawEv.isTeardown]
  · rw [htrace, List.count_append]
    have h0 : List.count RawEv.rcClose ([RawEv.lbNext, RawEv.gaugeInc w.remote]
        ++ (raw.GetOrCreateBufferCh uaddr).trace
        ++ [RawEv.resolveUDPAddr w.remote, RawEv.dialUDP]
        ++ [RawEv.poolGet, RawEv.wgAdd, RawEv.go 1]
        ++ interleave w.schedule (inboundTask w.remote w.inbound)
            ([RawEv.wgAdd, RawEv.go 2] ++ outboundTask w.remote w.outbound)
        ++ [RawEv.wgWait, RawEv.poolPut]) = 0 := by
      apply List.count_eq_zero_of_not_mem
      intro hmem
      have := hpre _ hmem
      simp [RawEv.isTeardown] at this
    rw [h0]
    simp [List.count_cons]
  · simp only [Raw.HandleUDPConn, hd, if_true]
    exact mapGet_mapDelete_self _ _

/-- Witness for C7: one datagram relayed back, then the idle deadline; the queue
task is cancelled. -/
theorem C7_teardown_after_tasks_witness :
    oneDatagramWorld.dialed = true ∧
    List.count RawEv.rcClose (emptyRaw.HandleUDPConn clientA oneDatagramWorld).trace = 1 ∧
    mapGet (emptyRaw.HandleUDPConn clientA oneDatagramWorld).raw.UDPBufferChMap
      clientA.String = none :=
  ⟨by decide, (C7_teardown_after_tasks emptyRaw clientA oneDatagramWorld (by decide)).2⟩

/-- C9 (evaluation at the failing input): in the trace of a `HandleUDPConn` whose
dial succeeds, the deferred `delete(raw.UDPBufferChMap, ...)` happens after the
`unlock` of `GetOrCreateBufferCh` with no `lock` in between, so the lock discipline
fails on that trace, while it holds on the trace of `GetOrCreateBufferCh` alone. -/
theorem C9_delete_without_lock :
    lockDiscipline false (emptyRaw.HandleUDPConn clientA idleWorld).trace = false ∧
    (emptyRaw.HandleUDPConn clientA idleWorld).trace
      = [.lbNext, .gaugeInc "r:53", .lock, .mapLookup "10.0.0.1:53",
         .mapInsert "10.0.0.1:53" 0, .unlock, .resolveUDPAddr "r:53", .dialUDP, .poolGet,
         .wgAdd, .go 1, .setDeadline 1, .rcRead .timeout, .metricAdd "r:53" 0, .cancel,
         .wgDone 1, .wgAdd, .go 2, .ctxDone, .wgDone 2, .wgWait, .poolPut, .rcClose,
         .mapDelete "10.0.0.1:53", .gaugeDec "r:53"] ∧
    lockDiscipline false (emptyRaw.GetOrCreateBufferCh clientA).trace = true := by
  decide

/-! ### Lemmas on `base.go` -/

theorem Conn.read_readAll (c : Conn) :
    ∀ n : Nat, (c.read n).1 ++ (c.read n).2.readAll = c.readAll := by
  induction c with
  | sock id unread =>
    intro n
    simp [Conn.read, Conn.readAll]
  | cached inner buffer ih =>
    intro n
    by_cases hn : n ≤ buffer.length
    · simp only [Conn.read, hn, if_true, Conn.readAll]
      rw [← List.append_assoc, List.take_append_drop]
    · simp only [Conn.read, hn, if_false, Conn.readAll, List.nil_append]
      rw [List.append_assoc, ih]
  | rateLimited inner kbps ih =>
    intro n
    simp only [Conn.read, Conn.readAll]
    exact ih n

theorem matchBlocked_iff (protocol : String) (blocked : List String) :
    matchBlocked protocol blocked = true ↔ protocol ∈ blocked := by
  induction blocked with
  | nil => simp [matchBlocked]
  | cons p rest ih =>
    by_cases h : protocol = p
    · simp [matchBlocked, h]
    · simp [matchBlocked, h, ih]

theorem sniff_replays_without_error (b : BaseRelayServer) (peek : PeekResult) (c : Conn)
    (hok : ∀ e, peek.outcome ≠ .err e) (hnone : (b.sniffAndBlockProtocol peek c).err = none) :
    (b.sniffAndBlockProtocol peek c).conn.readAll = c.readAll := by
  have hr := Conn.read_readAll c peek.consumed
  unfold BaseRelayServer.sniffAndBlockProtocol at hnone ⊢
  by_cases h0 : b.cfg.Options.BlockedProtocols.length = 0
  · simp [h0]
  · simp only [h0, if_false] at hnone ⊢
    cases ho : peek.outcome with
    | err e => exact absurd ho (hok e)
    | noMatch =>
      by_cases hb : (c.read peek.consumed).1.isEmpty = true
      · have hnil : (c.read peek.consumed).1 = [] := List.isEmpty_iff.mp hb
        simp only [hb, Bool.not_true, Bool.false_eq_true, if_false]
        rw [← hr, hnil, List.nil_append]
      · simp only [hb, Bool.not_false, if_true, Conn.readAll]
        exact hr
    | detected p =>
      rw [ho] at hnone
      by_cases hm : matchBlocked p b.cfg.Options.BlockedProtocols = true
      · simp [hm] at hnone
      · simp only [hm, Bool.false_eq_true, if_false]
        by_cases hb : (c.read peek.consumed).1.isEmpty = true
        · have hnil : (c.read peek.consumed).1 = [] := List.isEmpty_iff.mp hb
          simp only [hb, Bool.not_true, Bool.false_eq_true, if_false]
          rw [← hr, hnil, List.nil_append]
        · simp only [hb, Bool.not_false, if_true, Conn.readAll]
          exact hr

/-- On the sniff-error path the bytes read into the scratch buffer are missing from
what the returned connection delivers. -/
theorem sniff_error_loses_buffer (b : BaseRelayServer) (peek : PeekResult) (c : Conn)
    (e : GoError) (hne : b.cfg.Options.BlockedProtocols ≠ []) (herr : peek.outcome = .err e) :
    (b.sniffAndBlockProtocol peek c).err = none ∧
    (c.read peek.consumed).1 ++ (b.sniffAndBlockProtocol peek c).conn.readAll = c.readAll := by
  have h0 : ¬ (b.cfg.Options.BlockedProtocols.length = 0) := by
    intro h
    exact hne (List.length_eq_zero.mp h)
  unfold BaseRelayServer.sniffAndBlockProtocol
  simp only [h0, if_false, herr]
  exact ⟨trivial, Conn.read_readAll c peek.consumed⟩

theorem cmgr_add_count (m : Cmgr) (rc : RelayConn) :
    (m.AddConnection rc).CountConnection = m.CountConnection + 1 := by
  simp [Cmgr.AddConnection, Cmgr.CountConnection]

theorem cmgr_add_remove_count (m : Cmgr) (rc : RelayConn) :
    ((m.AddConnection rc).RemoveConnection rc).CountConnection = m.CountConnection := by
  simp only [Cmgr.AddConnection, Cmgr.RemoveConnection, Cmgr.CountConnection]
  rw [List.length_erase_of_mem (by simp)]
  simp

theorem checkConnectionLimit_of_limit {b : BaseRelayServer} (h : b.limitReached) :
    b.checkConnectionLimit = (some b.admissionError, [RelayEv.countConnection]) := by
  unfold BaseRelayServer.limitReached at h
  simp [BaseRelayServer.checkConnectionLimit, h.1, h.2]

theorem checkConnectionLimit_of_not_limit {b : BaseRelayServer} (h : ¬ b.limitReached) :
    b.checkConnectionLimit = (none, [RelayEv.countConnection]) ∨
    b.checkConnectionLimit = (none, []) := by
  unfold BaseRelayServer.limitReached at h
  unfold BaseRelayServer.checkConnectionLimit
  by_cases h1 : b.cfg.Options.MaxConnection > 0
  · have h2 : ¬ (b.cmgr.CountConnection ≥ b.cfg.Options.MaxConnection) := fun h2 => h ⟨h1, h2⟩
    left
    simp [h1, h2]
  · right
    simp [h1]

theorem sniff_trace_cases (b : BaseRelayServer) (peek : PeekResult) (c : Conn) :
    (b.sniffAndBlockProtocol peek c).trace = [] ∧ (b.sniffAndBlockProtocol peek c).err = none ∨
    (b.sniffAndBlockProtocol peek c).trace = [RelayEv.newPacket, RelayEv.peekStream] ∨
    (b.sniffAndBlockProtocol peek c).trace
      = [RelayEv.newPacket, RelayEv.peekStream, RelayEv.bufferRelease] := by
  unfold BaseRelayServer.sniffAndBlockProtocol
  by_cases h0 : b.cfg.Options.BlockedProtocols.length = 0
  · simp [h0]
  · simp only [h0, if_false]
    right
    cases peek.outcome with
    | err e => simp
    | noMatch =>
      by_cases hb : (c.read peek.consumed).1 = [] <;> simp [hb]
    | detected p =>
      by_cases hm : matchBlocked p b.cfg.Options.BlockedProtocols = true
      · simp [hm]
      · by_cases hb : (c.read peek.consumed).1 = [] <;> simp [hm, hb]

theorem relayTCPConn_of_limit {b : BaseRelayServer} (h : b.limitReached) (w : RelayWorld)
    (c : Conn) :
    b.RelayTCPConn w c =
      { err := some b.admissionError, cmgr := b.cmgr,
        trace := [RelayEv.lbNext, RelayEv.gaugeInc w.remote.Label METRIC_CONN_TYPE_TCP,
          RelayEv.countConnection, RelayEv.gaugeDec w.remote.Label METRIC_CONN_TYPE_TCP] } := by
  simp [BaseRelayServer.RelayTCPConn, checkConnectionLimit_of_limit h]

theorem relayTCPConn_of_sniff_err {b : BaseRelayServer} (h : ¬ b.limitReached) (w : RelayWorld)
    (c : Conn) {e : GoError} (hs : (b.sniffAndBlockProtocol w.peek c).err = some e) :
    b.RelayTCPConn w c =
      { err := some e, cmgr := b.cmgr,
        trace := [RelayEv.lbNext, RelayEv.gaugeInc w.remote.Label METRIC_CONN_TYPE_TCP]
          ++ b.checkConnectionLimit.2 ++ (b.sniffAndBlockProtocol w.peek c).trace
          ++ [RelayEv.gaugeDec w.remote.Label METRIC_CONN_TYPE_TCP] } := by
  unfold BaseRelayServer.RelayTCPConn
  rcases checkConnectionLimit_of_not_limit h with h' | h' <;> simp [h', hs]

theorem relayTCPConn_of_handshake_ok {b : BaseRelayServer} (h : ¬ b.limitReached)
    (w : RelayWorld) (c : Conn) (hs : (b.sniffAndBlockProtocol w.peek c).err = none)
    {rc : Conn} {duration : Int} (hh : w.handshake = .ok rc duration) :
    b.RelayTCPConn w c =
      { err := w.transport,
        cmgr := (b.cmgr.AddConnection
            (b.newRelayConn (b.applyRateLimit (b.sniffAndBlockProtocol w.peek c).conn) rc
              { w.remote with HandShakeDuration := duration } METRIC_CONN_TYPE_TCP)).RemoveConnection
            (b.newRelayConn (b.applyRateLimit (b.sniffAndBlockProtocol w.peek c).conn) rc
              { w.remote with HandShakeDuration := duration } METRIC_CONN_TYPE_TCP),
        trace := [RelayEv.lbNext, RelayEv.gaugeInc w.remote.Label METRIC_CONN_TYPE_TCP]
          ++ b.checkConnectionLimit.2 ++ (b.sniffAndBlockProtocol w.peek c).trace
          ++ [RelayEv.handShake w.remote true,
              RelayEv.addConnection
                (b.newRelayConn (b.applyRateLimit (b.sniffAndBlockProtocol w.peek c).conn) rc
                  { w.remote with HandShakeDuration := duration } METRIC_CONN_TYPE_TCP),
              RelayEv.transport
                (b.newRelayConn (b.applyRateLimit (b.sniffAndBlockProtocol w.peek c).conn) rc
                  { w.remote with HandShakeDuration := duration } METRIC_CONN_TYPE_TCP),
              RelayEv.removeConnection
                (b.newRelayConn (b.applyRateLimit (b.sniffAndBlockProtocol w.peek c).conn) rc
                  { w.remote with HandShakeDuration := duration } METRIC_CONN_TYPE_TCP),
              RelayEv.rcClose,
              RelayEv.gaugeDec w.remote.Label METRIC_CONN_TYPE_TCP] } := by
  unfold BaseRelayServer.RelayTCPConn
  rcases checkConnectionLimit_of_not_limit h with h' | h' <;>
    simp [h', hs, hh, BaseRelayServer.handleRelayConn]

theorem checkConnectionLimit_trace_no_afterSniff (b : BaseRelayServer) :
    ∀ ev ∈ b.checkConnectionLimit.2, ev.afterSniff = false := by
  intro ev hev
  unfold BaseRelayServer.checkConnectionLimit at hev
  split at hev
  · split at hev <;>
      (simp only [List.mem_singleton] at hev; simp [hev, RelayEv.afterSniff])
  · simp at hev

theorem sniff_trace_no_afterSniff (b : BaseRelayServer) (peek : PeekResult) (c : Conn) :
    ∀ ev ∈ (b.sniffAndBlockProtocol peek c).trace, ev.afterSniff = false := by
  intro ev hev
  rcases sniff_trace_cases b peek c with ⟨h, _⟩ | h | h
  · rw [h] at hev; simp at hev
  · rw [h] at hev
    simp only [List.mem_cons, List.mem_singleton, List.not_mem_nil, or_false] at hev
    rcases hev with h | h <;> simp [h, RelayEv.afterSniff]
  · rw [h] at hev
    simp only [List.mem_cons, List.mem_singleton, List.not_mem_nil, or_false] at hev
    rcases hev with h | h | h <;> simp [h, RelayEv.afterSniff]

theorem sniff_detected (b : BaseRelayServer) (peek : PeekResult) (c : Conn) (p : String)
    (hne : b.cfg.Options.BlockedProtocols ≠ []) (hp : peek.outcome = .detected p) :
    (p ∈ b.cfg.Options.BlockedProtocols →
      (b.sniffAndBlockProtocol peek c).err = some (b.blockedError p)) ∧
    (p ∉ b.cfg.Options.BlockedProtocols → (b.sniffAndBlockProtocol peek c).err = none) := by
  have h0 : ¬ (b.cfg.Options.BlockedProtocols.length = 0) := by
    intro h
    exact hne (List.length_eq_zero.mp h)
  unfold BaseRelayServer.sniffAndBlockProtocol
  simp only [h0, if_false, hp]
  constructor
  · intro hmem
    have hm := (matchBlocked_iff p _).mpr hmem
    simp [hm]
  · intro hmem
    have hm : ¬ (matchBlocked p b.cfg.Options.BlockedProtocols = true) :=
      fun h => hmem ((matchBlocked_iff p _).mp h)
    by_cases hb : (c.read peek.consumed).1 = [] <;> simp [hm, hb]

/-! ### Claims on `base.go` -/

/-- C1: for every configuration and every connection-manager state, the admission
check returns its error exactly when `MaxConnection > 0` and the active count is at
least `MaxConnection`; `RelayTCPConn` then returns that error, whose message names
the relay label and the limit, with the connection manager untouched and a trace
made of the remote selection, the gauge increment, the count query and the gauge
decrement: no sniff, no handshake, no registration, no transport.  Conversely a run
with that result and that trace only happens when the limit is reached. -/
theorem C1_admission_limit (b : BaseRelayServer) (w : RelayWorld) (c : Conn) :
    (b.checkConnectionLimit.1 = some b.admissionError ↔ b.limitReached) ∧
    (b.checkConnectionLimit.1 = none ↔ ¬ b.limitReached) ∧
    (((b.RelayTCPConn w c).err = some b.admissionError ∧
      (b.RelayTCPConn w c).trace
        = [RelayEv.lbNext, RelayEv.gaugeInc w.remote.Label METRIC_CONN_TYPE_TCP,
           RelayEv.countConnection, RelayEv.gaugeDec w.remote.Label METRIC_CONN_TYPE_TCP])
      ↔ b.limitReached) ∧
    (b.limitReached →
      (b.RelayTCPConn w c).cmgr = b.cmgr ∧
      ∀ ev ∈ (b.RelayTCPConn w c).trace, ev.afterAdmission = false) ∧
    b.admissionError.Error
      = "relay:" ++ b.cfg.Label ++ " active connection count exceed limit "
          ++ toString b.cfg.Options.MaxConnection := by
  have hrun : b.limitReached → _ := fun h => relayTCPConn_of_limit h w c
  refine ⟨?_, ?_, ?_, ?_, rfl⟩
  · constructor
    · intro h
      by_contra hn
      rcases checkConnectionLimit_of_not_limit hn with h' | h' <;> simp [h'] at h
    · intro h
      rw [checkConnectionLimit_of_limit h]
  · constructor
    · intro h hl
      rw [checkConnectionLimit_of_limit hl] at h
      simp at h
    · intro hn
      rcases checkConnectionLimit_of_not_limit hn with h' | h' <;> simp [h']
  · constructor
    · rintro ⟨_, htr⟩
      by_contra hn
      have hs := sniff_trace_cases b w.peek c
      unfold BaseRelayServer.RelayTCPConn at htr
      rcases checkConnectionLimit_of_not_limit hn with h' | h'
      · simp only [h'] at htr
        rcases hs with ⟨hs1, hs2⟩ | hs1 | hs1
        · simp only [hs2] at htr
          cases hh : w.handshake <;> simp [hh, hs1, BaseRelayServer.handleRelayConn] at htr
        · split at htr
          · simp [hs1] at htr
          · cases hh : w.handshake <;> simp [hh, hs1, BaseRelayServer.handleRelayConn] at htr
        · split at htr
          · simp [hs1] at htr
          · cases hh : w.handshake <;> simp [hh, hs1, BaseRelayServer.handleRelayConn] at htr
      · simp only [h'] at htr
        rcases hs with ⟨hs1, hs2⟩ | hs1 | hs1
        · simp only [hs2] at htr
          cases hh : w.handshake <;> simp [hh, hs1, BaseRelayServer.handleRelayConn] at htr
        · split at htr
          · simp [hs1] at htr
          · cases hh : w.handshake <;> simp [hh, hs1, BaseRelayServer.handleRelayConn] at htr
        · split at htr
          · simp [hs1] at htr
          · cases hh : w.handshake <;> simp [hh, hs1, BaseRelayServer.handleRelayConn] at htr
    · intro h
      rw [hrun h]
      exact ⟨rfl, rfl⟩
  · intro h
    rw [hrun h]
    refine ⟨rfl, ?_⟩
    intro ev hev
    simp only [List.mem_cons, List.mem_singleton, List.not_mem_nil, or_false] at hev
    rcases hev with h | h | h | h <;> simp [h, RelayEv.afterAdmission, RelayEv.afterSniff]

/-- Witness for C1: limit 1 with one connection registered. -/
theorem C1_admission_limit_witness :
    fullServer.limitReached ∧
    (fullServer.RelayTCPConn httpWorld inboundConn).err
      = some (.errorf "relay:r1 active connection count exceed limit 1") ∧
    (fullServer.RelayTCPConn httpWorld inboundConn).cmgr = fullServer.cmgr :=
  ⟨by decide,
    ((C1_admission_limit fullServer httpWorld inboundConn).2.2.1.mpr (by decide)).1,
    ((C1_admission_limit fullServer httpWorld inboundConn).2.2.2.1 (by decide)).1⟩

/-- C2: for every non-empty block-list and every sniff that succeeds with a detected
protocol `p`, `sniffAndBlockProtocol` returns an error if and only if `p` is in the
block-list; that error is `relay:<label> blocked protocol:<p>`; and then
`RelayTCPConn` makes no handshake, registration, transport or close call, leaves the
connection manager untouched and, the admission check having passed, returns that
error. -/
theorem C2_blocked_protocol (b : BaseRelayServer) (w : RelayWorld) (c : Conn) (p : String)
    (hne : b.cfg.Options.BlockedProtocols ≠ []) (hp : w.peek.outcome = .detected p) :
    ((b.sniffAndBlockProtocol w.peek c).err ≠ none ↔ p ∈ b.cfg.Options.BlockedProtocols) ∧
    (p ∈ b.cfg.Options.BlockedProtocols →
      (b.sniffAndBlockProtocol w.peek c).err = some (b.blockedError p)) ∧
    (b.blockedError p).Error = "relay:" ++ b.cfg.Label ++ " blocked protocol:" ++ p ∧
    (p ∈ b.cfg.Options.BlockedProtocols →
      (∀ ev ∈ (b.RelayTCPConn w c).trace, ev.afterSniff = false) ∧
      (b.RelayTCPConn w c).cmgr = b.cmgr ∧
      (¬ b.limitReached → (b.RelayTCPConn w c).err = some (b.blockedError p))) := by
  obtain ⟨hin, hout⟩ := sniff_detected b w.peek c p hne hp
  refine ⟨?_, hin, rfl, ?_⟩
  · constructor
    · intro herr
      by_contra hmem
      exact herr (hout hmem)
    · intro hmem
      rw [hin hmem]
      simp
  · intro hmem
    by_cases hl : b.limitReached
    · rw [relayTCPConn_of_limit hl w c]
      refine ⟨?_, rfl, fun hn => absurd hl hn⟩
      intro ev hev
      simp only [List.mem_cons, List.mem_singleton, List.not_mem_nil, or_false] at hev
      rcases hev with h | h | h | h <;> simp [h, RelayEv.afterSniff]
    · rw [relayTCPConn_of_sniff_err hl w c (hin hmem)]
      refine ⟨?_, rfl, fun _ => rfl⟩
      intro ev hev
      rcases List.mem_append.mp hev with h3 | h
      · rcases List.mem_append.mp h3 with h2 | h
        · rcases List.mem_append.mp h2 with h | h
          · simp only [List.mem_cons, List.mem_singleton, List.not_mem_nil, or_false] at h
            rcases h with h | h <;> simp [h, RelayEv.afterSniff]
          · exact checkConnectionLimit_trace_no_afterSniff b ev h
        · exact sniff_trace_no_afterSniff b w.peek c ev h
      · simp only [List.mem_singleton] at h
        simp [h, RelayEv.afterSniff]

/-- Witness for C2: the relay blocks `http` and the sniffer detects `http`. -/
theorem C2_blocked_protocol_witness :
    blockingServer.cfg.Options.BlockedProtocols ≠ [] ∧
    httpWorld.peek.outcome = .detected "http" ∧
    (blockingServer.sniffAndBlockProtocol httpWorld.peek inboundConn).err
      = some (.errorf "relay:r1 blocked protocol:http") ∧
    (blockingServer.RelayTCPConn httpWorld inboundConn).err
      = some (.errorf "relay:r1 blocked protocol:http") :=
  ⟨by decide, by decide,
    (C2_blocked_protocol blockingServer httpWorld inboundConn "http" (by decide)
      (by decide)).2.1 (by decide),
    ((C2_blocked_protocol blockingServer httpWorld inboundConn "http" (by decide)
      (by decide)).2.2.2 (by decide)).2.2 (by decide)⟩

/-- C3 (evaluation at the failing input): with a non-empty block-list, when the
sniffer has read two bytes and reports an error, `sniffAndBlockProtocol` returns the
bare connection with no error: its reader receives the last two bytes of the four
that were inbound, the two peeked bytes are lost.  With the same two bytes peeked
and no error reported, the returned connection delivers all four. -/
theorem C3_sniff_error_drops_peeked_bytes :
    inboundConn.readAll = [22, 3, 1, 0] ∧
    (blockingServer.sniffAndBlockProtocol sniffErrorWorld.peek inboundConn).err = none ∧
    (blockingServer.sniffAndBlockProtocol sniffErrorWorld.peek inboundConn).conn.readAll
      = [1, 0] ∧
    (blockingServer.sniffAndBlockProtocol { consumed := 2, outcome := .noMatch }
      inboundConn).conn.readAll = [22, 3, 1, 0] := by
  decide

/-- C10: for every outcome of the transport step, `handleRelayConn` makes exactly
the calls `AddConnection(rc)`, `rc.Transport()`, `RemoveConnection(rc)` in that
order on one relay connection, which is registered (one more connection counted)
while the transport runs and deregistered afterwards, and it returns the
transport's error.  Consequently, once the handshake has been made and has
succeeded, `RelayUDPConn` and `RelayTCPConn` run exactly that sequence between the
handshake and the close of the outbound connection, on the relay connection built
from the inbound connection, the outbound connection and the node with its
handshake duration; they return the transport's error unchanged and leave the number
of registered connections as it was before the call. -/
theorem C10_register_transport_deregister (b : BaseRelayServer) (w : RelayWorld) (c rc : Conn)
    (duration : Int) (remote : Node) (connType : String)
    (hh : w.handshake = .ok rc duration) :
    (∃ relayConn : RelayConn,
      relayConn = b.newRelayConn c rc remote connType ∧
      b.handleRelayConn c rc remote connType w.transport
        = { err := w.transport,
            cmgr := (b.cmgr.AddConnection relayConn).RemoveConnection relayConn,
            trace := [RelayEv.addConnection relayConn, RelayEv.transport relayConn,
              RelayEv.removeConnection relayConn] } ∧
      relayConn ∈ (b.cmgr.AddConnection relayConn).active ∧
      (b.cmgr.AddConnection relayConn).CountConnection = b.cmgr.CountConnection + 1 ∧
      ((b.cmgr.AddConnection relayConn).RemoveConnection relayConn).CountConnection
        = b.cmgr.CountConnection) ∧
    (∃ relayConn : RelayConn,
      relayConn = b.newRelayConn c rc { w.remote with HandShakeDuration := duration }
        METRIC_CONN_TYPE_UDP ∧
      b.RelayUDPConn w c
        = { err := w.transport,
            cmgr := (b.cmgr.AddConnection relayConn).RemoveConnection relayConn,
            trace := [RelayEv.lbNext, RelayEv.gaugeInc w.remote.Label METRIC_CONN_TYPE_UDP,
              RelayEv.handShake w.remote false,
              RelayEv.addConnection relayConn, RelayEv.transport relayConn,
              RelayEv.removeConnection relayConn,
              RelayEv.rcClose, RelayEv.gaugeDec w.remote.Label METRIC_CONN_TYPE_UDP] } ∧
      (b.cmgr.AddConnection relayConn).CountConnection = b.cmgr.CountConnection + 1 ∧
      (b.RelayUDPConn w c).cmgr.CountConnection = b.cmgr.CountConnection) ∧
    (RelayEv.handShake w.remote true ∈ (b.RelayTCPConn w c).trace →
      ∃ relayConn : RelayConn,
        relayConn = b.newRelayConn (b.applyRateLimit (b.sniffAndBlockProtocol w.peek c).conn) rc
          { w.remote with HandShakeDuration := duration } METRIC_CONN_TYPE_TCP ∧
        b.RelayTCPConn w c
          = { err := w.transport,
              cmgr := (b.cmgr.AddConnection relayConn).RemoveConnection relayConn,
              trace := [RelayEv.lbNext, RelayEv.gaugeInc w.remote.Label METRIC_CONN_TYPE_TCP]
                ++ b.checkConnectionLimit.2 ++ (b.sniffAndBlockProtocol w.peek c).trace
                ++ [RelayEv.handShake w.remote true,
                    RelayEv.addConnection relayConn, RelayEv.transport relayConn,
                    RelayEv.removeConnection relayConn,
                    RelayEv.rcClose, RelayEv.gaugeDec w.remote.Label METRIC_CONN_TYPE_TCP] } ∧
        (b.cmgr.AddConnection relayConn).CountConnection = b.cmgr.CountConnection + 1 ∧
        (b.RelayTCPConn w c).cmgr.CountConnection = b.cmgr.CountConnection) := by
  refine ⟨⟨_, rfl, rfl, ?_, cmgr_add_count _ _, cmgr_add_remove_count _ _⟩,
    ⟨_, rfl, ?_, cmgr_add_count _ _, ?_⟩, ?_⟩
  · simp [Cmgr.AddConnection]
  · simp [BaseRelayServer.RelayUDPConn, hh, BaseRelayServer.handleRelayConn]
  · simp only [BaseRelayServer.RelayUDPConn, hh, BaseRelayServer.handleRelayConn]
    exact cmgr_add_remove_count _ _
  · intro hmem
    by_cases hl : b.limitReached
    · rw [relayTCPConn_of_limit hl w c] at hmem
      simp at hmem
    · cases hs : (b.sniffAndBlockProtocol w.peek c).err with
      | some e =>
        rw [relayTCPConn_of_sniff_err hl w c hs] at hmem
        exfalso
        rcases List.mem_append.mp hmem with h3 | h
        · rcases List.mem_append.mp h3 with h2 | h
          · rcases List.mem_append.mp h2 with h | h
            · simp at h
            · have := checkConnectionLimit_trace_no_afterSniff b _ h
              simp [RelayEv.afterSniff] at this
          · have := sniff_trace_no_afterSniff b w.peek c _ h
            simp [RelayEv.afterSniff] at this
        · simp at h
      | none =>
        refine ⟨_, rfl, relayTCPConn_of_handshake_ok hl w c hs hh, cmgr_add_count _ _, ?_⟩
        rw [relayTCPConn_of_handshake_ok hl w c hs hh]
        exact cmgr_add_remove_count _ _

/-- Witness for C10: the sniffer fails open, the handshake succeeds, the transport
ends with `EOF`; both relay calls return `EOF`, the UDP call after the eight calls
shown, and no connection stays registered. -/
theorem C10_register_transport_deregister_witness :
    transportErrorWorld.handshake = .ok (.sock 9 []) 5 ∧
    RelayEv.handShake transportErrorWorld.remote true
      ∈ (blockingServer.RelayTCPConn transportErrorWorld inboundConn).trace ∧
    (blockingServer.RelayUDPConn transportErrorWorld inboundConn).err
      = some (.errorf "EOF") ∧
    (blockingServer.RelayUDPConn transportErrorWorld inboundConn).trace.length = 8 ∧
    (blockingServer.RelayTCPConn transportErrorWorld inboundConn).err
      = some (.errorf "EOF") ∧
    (blockingServer.RelayTCPConn transportErrorWorld inboundConn).cmgr.CountConnection
      = 0 := by
  have h := C10_register_transport_deregister blockingServer transportErrorWorld inboundConn
    (.sock 9 []) 5 transportErrorWorld.remote METRIC_CONN_TYPE_UDP rfl
  obtain ⟨_, ⟨ru, _, hu, _, _⟩, ht⟩ := h
  obtain ⟨rt, _, htcp, _, hcount⟩ := ht (by decide)
  refine ⟨rfl, by decide, ?_, ?_, ?_, hcount⟩
  · rw [hu]; rfl
  · rw [hu]; rfl
  · rw [htcp]; rfl

end Ehco
